import Mathlib

/-
Verification of the pmppt distributed performance-measurement orchestrator.

This file shallowly embeds the core of the program:
  * the request/response data model (src/common/communication.rs),
  * the MsgPack wire-level enums and their conversions (src/common/msgpack_impl.rs),
  * the agent runtime: id allocation, poller/process spawning, path lookup,
    per-resource stop and reverse-order stop-all (src/src/agent.rs),
  * the controller finalisation loop and the out.map writer (src/controller.rs),
  * the fio activity constructor (src/controller/activity.rs).

External effects (filesystem, globbing, process spawning, archiving) are
modelled by an oracle structure `AgentEnv`; the agent's observable behaviour is
a list of `Event`s.  Rust panics (`unwrap`, `assert!`, `unreachable!`) are
modelled by the `AgentStep.panic` constructor.
-/

set_option maxRecDepth 8000

deriving instance DecidableEq for Except

namespace Pmppt

/-- SpawnMode from src/common/communication.rs. -/
inductive SpawnMode
  | Foreground
  | BackgroundWait
  | BackgroundKill
deriving DecidableEq

/-- Request from src/common/communication.rs.  `Id` (a u32) is modelled as `Nat`;
sessions never approach 2^32 allocations, so wrap-around is not modelled. -/
inductive Request
  | Poll (pattern : String)
  | Spawn (cmd : String) (args : List String) (mode : SpawnMode)
  | LookupPaths (pattern : String)
  | Stop (id : Nat)
  | StopAll
  | Collect
  | End
  | Abort
deriving DecidableEq

/-- Response from src/common/communication.rs.  `Vec<u8>` is modelled as `List Nat`,
`PathBuf` as `String`, `Result<_, String>` as `Except String _`. -/
inductive Response
  | Poll (r : Except String Nat)
  | SpawnFg (r : Except String (List Nat × List Nat))
  | SpawnBg (r : Except String Nat)
  | LookupPaths (r : Except String (List String))
  | Stop (r : Except String Nat)
  | StopAll (r : Except String Unit)
  | Collect (r : Except String (List Nat))
deriving DecidableEq

namespace Wire

/-- The wire-level Request enum from src/common/msgpack_impl.rs.  Note: it has
no LookupPaths variant.  (The msgpack SpawnMode enum mirrors the communication
one variant for variant and its conversions are total identities, so a single
`SpawnMode` type is used for both.) -/
inductive Request
  | Poll (pattern : String)
  | Spawn (cmd : String) (args : List String) (mode : SpawnMode)
  | Stop (id : Nat)
  | StopAll
  | Collect
  | End
  | Abort
deriving DecidableEq

/-- The wire-level Response enum from src/common/msgpack_impl.rs.  Note: it has
no LookupPaths variant. -/
inductive Response
  | Poll (r : Except String Nat)
  | SpawnFg (r : Except String (List Nat × List Nat))
  | SpawnBg (r : Except String Nat)
  | Stop (r : Except String Nat)
  | StopAll (r : Except String Unit)
  | Collect (r : Except String (List Nat))
deriving DecidableEq

end Wire

/-- The conversion `impl From<communication::Request> for msgpack_impl::Request`.
The source match has no arm for `LookupPaths` (the match is not exhaustive over
`communication::Request`), which is modelled by returning `none` there. -/
def requestToWire : Request → Option Wire.Request
  | .Poll pattern => some (.Poll pattern)
  | .Spawn cmd args mode => some (.Spawn cmd args mode)
  | .Stop id => some (.Stop id)
  | .StopAll => some .StopAll
  | .Collect => some .Collect
  | .End => some .End
  | .Abort => some .Abort
  | .LookupPaths _ => none

/-- The conversion `impl From<msgpack_impl::Request> for communication::Request`. -/
def requestOfWire : Wire.Request → Request
  | .Poll pattern => .Poll pattern
  | .Spawn cmd args mode => .Spawn cmd args mode
  | .Stop id => .Stop id
  | .StopAll => .StopAll
  | .Collect => .Collect
  | .End => .End
  | .Abort => .Abort

/-- The conversion `impl From<communication::Response> for msgpack_impl::Response`.
The source match has no arm for `LookupPaths`, modelled by `none`. -/
def responseToWire : Response → Option Wire.Response
  | .Poll r => some (.Poll r)
  | .SpawnFg r => some (.SpawnFg r)
  | .SpawnBg r => some (.SpawnBg r)
  | .Stop r => some (.Stop r)
  | .StopAll r => some (.StopAll r)
  | .Collect r => some (.Collect r)
  | .LookupPaths _ => none

/-- The conversion `impl From<msgpack_impl::Response> for communication::Response`. -/
def responseOfWire : Wire.Response → Response
  | .Poll r => .Poll r
  | .SpawnFg r => .SpawnFg r
  | .SpawnBg r => .SpawnBg r
  | .Stop r => .Stop r
  | .StopAll r => .StopAll r
  | .Collect r => .Collect r

/-- Encoding a communication-level request through the wire codec and decoding
it back (framing and the MsgPack byte serialisation are injective per variant;
the variant-level conversions are where information can be lost). -/
def requestRoundTrip (r : Request) : Option Request :=
  (requestToWire r).map requestOfWire

/-- Same for responses. -/
def responseRoundTrip (r : Response) : Option Response :=
  (responseToWire r).map responseOfWire

/-- Responses as actually constructed by the agent (src/src/agent.rs) and
pattern-matched by the controller activities (src/controller/activity.rs):
there `SpawnFg` carries `(id, stdout, stderr)`.  (communication.rs declares
`OutOrError` with only `(stdout, stderr)`; the agent model follows the agent
and activity code, which both use the id-carrying triple.) -/
inductive ARes
  | Poll (r : Except String Nat)
  | SpawnFg (r : Except String (Nat × List Nat × List Nat))
  | SpawnBg (r : Except String Nat)
  | LookupPaths (r : Except String (List String))
  | Stop (r : Except String Nat)
  | StopAll (r : Except String Unit)
  | Collect (r : Except String (List Nat))
deriving DecidableEq

/-- Observable actions of the agent: filesystem side effects, process/poller
lifecycle actions, and responses sent back on the connection.
`sigTerm` is `Popen::terminate`, `procWait` is `Popen::wait`, `pollStop` is
setting the cooperative stop flag and joining the poller thread. -/
inductive Event
  | fileCreate (path : String)
  | dirCreate (path : String)
  | pollStart (id : Nat) (out : String)
  | procStart (id : Nat)
  | sigTerm (id : Nat)
  | procWait (id : Nat)
  | pollStop (id : Nat)
  | respond (r : ARes)
deriving DecidableEq

/-- The entry stored in the agent's `polls` map (struct Poll in agent.rs:
stop flag and thread handle are runtime-only, `name` is kept). -/
structure PollInfo where
  name : String
deriving DecidableEq

/-- The entry stored in the agent's `procs` map (struct Proc in agent.rs:
the OS child handle is runtime-only; `wait4` and `name` are kept). -/
structure ProcInfo where
  wait4 : Bool
  name : String
deriving DecidableEq

/-- The agent's state (struct Agent in agent.rs): the id counter, the output
directory and the two resource maps.  HashMaps are modelled as association
lists; the agent only ever iterates them through explicit ids, so map
iteration order is irrelevant. -/
structure AgentState where
  count : Nat
  outdir : String
  polls : List (Nat × PollInfo)
  procs : List (Nat × ProcInfo)
deriving DecidableEq

/-- Oracle for the agent's interactions with the outside world.
`glob` returns either a pattern error or the match iterator, whose items are
each either a path or a read error (mirroring the glob crate's API as used in
agent.rs).  `createFileNew` is `File::create_new` (false = failure),
`createDir` is `fs::create_dir`, `spawnBg` is `Exec::popen`, `runFg` is
`Exec::join`, `readFile` reads captured output back, `tar` is the archiver. -/
structure AgentEnv where
  braceExpand : String → List String
  glob : String → Except String (List (Except String String))
  createFileNew : String → Bool
  createDir : String → Bool
  spawnBg : String → List String → Except String Unit
  runFg : String → List String → Except String Unit
  readFile : String → List Nat
  tar : Except String (List Nat)

/-- Outcome of an agent computation: either a Rust panic (`unwrap`, `assert!`,
`unreachable!` in the source) or a normal result. -/
inductive AgentStep (α : Type)
  | panic (msg : String)
  | ok (val : α)
deriving DecidableEq

def AgentStep.isPanic : AgentStep α → Bool
  | .panic _ => true
  | .ok _ => false

def AgentStep.map (f : α → β) : AgentStep α → AgentStep β
  | .panic m => .panic m
  | .ok a => .ok (f a)

/-- Rust's `format!` `{id:03}` zero-padding used for all per-resource file names. -/
def pad3 (n : Nat) : String :=
  let s := toString n
  if s.length < 3 then String.mk (List.replicate (3 - s.length) (Char.ofNat 48)) ++ s else s

/-- `Exec::to_cmdline_lossy`, used only as a display name. -/
def cmdline (cmd : String) (args : List String) : String :=
  String.intercalate " " (cmd :: args)

/-- `Agent::get_next_id`: increment the counter, then use it. -/
def get_next_id (st : AgentState) : Nat × AgentState :=
  (st.count + 1, { st with count := st.count + 1 })

/-- Pushing one glob iterator's items into the accumulated path list
(the inner `for p in ps` loop of `Agent::lookup_paths`): any erroneous item
aborts the whole lookup. -/
def pushMatches (part : String) (acc : List String) :
    List (Except String String) → Except String (List String)
  | [] => .ok acc
  | .ok p :: rest => pushMatches part (acc ++ [p]) rest
  | .error e :: _ => .error ("cannot lookup " ++ part ++ ": " ++ e)

/-- The loop of `Agent::lookup_paths` over the brace expansions, carrying the
accumulated `paths`; the `[]` case is the final non-empty check after the loop.
An expansion whose glob adds no paths fails the whole lookup with a message
naming that expansion. -/
def lookupGo (env : AgentEnv) (pattern : String) :
    List String → List String → Except String (List String)
  | [], paths =>
      if paths.isEmpty then
        .error ("got empty search result on expanding " ++ pattern)
      else .ok paths
  | part :: parts, paths =>
      match env.glob part with
      | .error e => .error ("bad pattern " ++ pattern ++ ": " ++ e)
      | .ok ps =>
          match pushMatches part paths ps with
          | .error e => .error e
          | .ok paths2 =>
              if paths2.length = paths.length then
                .error ("in " ++ pattern ++ " got empty search result for " ++ part)
              else lookupGo env pattern parts paths2

/-- `Agent::lookup_paths`: brace-expand the pattern, then glob each expansion. -/
def lookup_paths (env : AgentEnv) (pattern : String) : Except String (List String) :=
  lookupGo env pattern (env.braceExpand pattern) []

/-- `Agent::spawn_poller`: allocate an id, spawn the polling thread writing to
`NNN-poll.log`, register the poller under the id.  (The source has a TODO about
not checking thread-spawn failures; spawning always succeeds.) -/
def spawn_poller (st : AgentState) (name : String) :
    AgentState × List Event × Except String Nat :=
  let (id, st1) := get_next_id st
  let path_out := st1.outdir ++ "/" ++ pad3 id ++ "-poll.log"
  ({ st1 with polls := st1.polls ++ [(id, ⟨name⟩)] },
   [Event.pollStart id path_out], .ok id)

/-- `Agent::spawn_process_background`: allocate the id first, then create the
two log files and the data directory (failures there are `unwrap`ed, i.e.
panics), then spawn; a spawn failure is returned as an error response. -/
def spawn_process_background (env : AgentEnv) (st : AgentState) (cmd : String)
    (args : List String) (wait4 : Bool) :
    AgentStep (AgentState × List Event × Except String Nat) :=
  let (id, st1) := get_next_id st
  let outpath := st1.outdir ++ "/" ++ pad3 id ++ "-out.log"
  let errpath := st1.outdir ++ "/" ++ pad3 id ++ "-err.log"
  let cwdpath := st1.outdir ++ "/" ++ pad3 id ++ "-data"
  if !env.createFileNew outpath then .panic ("File::create_new failed: " ++ outpath) else
  if !env.createFileNew errpath then .panic ("File::create_new failed: " ++ errpath) else
  if !env.createDir cwdpath then .panic ("create_dir failed: " ++ cwdpath) else
  let fileEvents := [Event.fileCreate outpath, Event.fileCreate errpath, Event.dirCreate cwdpath]
  match env.spawnBg cmd args with
  | .error e => .ok (st1, fileEvents, .error ("failed to spawn bg process: " ++ e))
  | .ok _ =>
      .ok ({ st1 with procs := st1.procs ++ [(id, ⟨wait4, cmdline cmd args⟩)] },
           fileEvents ++ [Event.procStart id], .ok id)

/-- `Agent::spawn_process_foreground`: same file setup (failures panic), run the
command to completion; a run failure is returned as an error response, success
returns the id together with the captured stdout/stderr bytes. -/
def spawn_process_foreground (env : AgentEnv) (st : AgentState) (cmd : String)
    (args : List String) :
    AgentStep (AgentState × List Event × Except String (Nat × List Nat × List Nat)) :=
  let (id, st1) := get_next_id st
  let outpath := st1.outdir ++ "/" ++ pad3 id ++ "-out.log"
  let errpath := st1.outdir ++ "/" ++ pad3 id ++ "-err.log"
  let cwdpath := st1.outdir ++ "/" ++ pad3 id ++ "-data"
  if !env.createFileNew outpath then .panic ("File::create_new failed: " ++ outpath) else
  if !env.createFileNew errpath then .panic ("File::create_new failed: " ++ errpath) else
  if !env.createDir cwdpath then .panic ("create_dir failed: " ++ cwdpath) else
  let fileEvents := [Event.fileCreate outpath, Event.fileCreate errpath, Event.dirCreate cwdpath]
  match env.runFg cmd args with
  | .error e => .ok (st1, fileEvents, .error ("failed to spawn fg process: " ++ e))
  | .ok _ =>
      .ok (st1, fileEvents ++ [Event.procStart id],
           .ok (id, env.readFile outpath, env.readFile errpath))

/-- `Agent::spawn_process`: dispatch on the spawn mode; `BackgroundWait` sets
`wait4 = true`, `BackgroundKill` sets `wait4 = false`. -/
def spawn_process (env : AgentEnv) (st : AgentState) (cmd : String)
    (args : List String) (mode : SpawnMode) : AgentStep (AgentState × List Event × ARes) :=
  match mode with
  | .Foreground =>
      (spawn_process_foreground env st cmd args).map
        (fun p => (p.1, p.2.1, ARes.SpawnFg p.2.2))
  | .BackgroundWait =>
      (spawn_process_background env st cmd args true).map
        (fun p => (p.1, p.2.1, ARes.SpawnBg p.2.2))
  | .BackgroundKill =>
      (spawn_process_background env st cmd args false).map
        (fun p => (p.1, p.2.1, ARes.SpawnBg p.2.2))

/-- `stop_process` in agent.rs: a process whose `wait4` flag is set and whose
stop is not forced is only waited for; otherwise it is first signalled to
terminate, then waited for. -/
def stop_process (id : Nat) (proc : ProcInfo) (force : Bool) : List Event :=
  (if !proc.wait4 || force then [Event.sigTerm id] else []) ++ [Event.procWait id]

/-- `HashMap::get`-style lookup on the association-list model. -/
def assocFind (id : Nat) (l : List (Nat × α)) : Option α :=
  (l.find? (fun p => p.1 == id)).map Prod.snd

/-- `HashMap::remove`-style removal on the association-list model. -/
def assocRemove (id : Nat) (l : List (Nat × α)) : List (Nat × α) :=
  l.filter (fun p => !(p.1 == id))

/-- The `for id in (1..=self.count).rev()` loop of `Agent::stop_all`:
the counter argument runs from `count` down to 1; an id present in both maps is
`unreachable!` (a panic). -/
def stop_loop (abnormal : Bool) :
    Nat → List (Nat × PollInfo) → List (Nat × ProcInfo) →
    AgentStep (List Event × List (Nat × PollInfo) × List (Nat × ProcInfo))
  | 0, polls, procs => .ok ([], polls, procs)
  | n + 1, polls, procs =>
      match assocFind (n + 1) procs, assocFind (n + 1) polls with
      | some proc, none =>
          (stop_loop abnormal n polls (assocRemove (n + 1) procs)).map
            (fun r => (stop_process (n + 1) proc abnormal ++ r.1, r.2))
      | none, some _ =>
          (stop_loop abnormal n (assocRemove (n + 1) polls) procs).map
            (fun r => (Event.pollStop (n + 1) :: r.1, r.2))
      | none, none => stop_loop abnormal n polls procs
      | some _, some _ =>
          .panic ("found both process and poller for id=" ++ toString (n + 1))

/-- `Agent::stop_all`: stop everything in strictly descending id order, assert
both maps ended up empty (a panic otherwise), and reply exactly once with
success when invoked by a `StopAll` request (`from_stopall`). -/
def stop_all (st : AgentState) (abnormal from_stopall : Bool) :
    AgentStep (AgentState × List Event) :=
  match stop_loop abnormal st.count st.polls st.procs with
  | .panic m => .panic m
  | .ok (evs, polls2, procs2) =>
      if polls2.isEmpty then
        if procs2.isEmpty then
          .ok ({ st with polls := polls2, procs := procs2 },
               evs ++ if from_stopall then [Event.respond (ARes.StopAll (.ok ()))] else [])
        else .panic "assertion failed: procs is_empty"
      else .panic "assertion failed: polls is_empty"

/-- `Agent::stop_task` (`Stop{id}`): look the id up in either map, stop and
remove it; an unknown id is answered with an error response. -/
def stop_task (st : AgentState) (id : Nat) : AgentStep (AgentState × List Event) :=
  match assocFind id st.procs, assocFind id st.polls with
  | some proc, none =>
      .ok ({ st with procs := assocRemove id st.procs },
           stop_process id proc false ++ [Event.respond (ARes.Stop (.ok id))])
  | none, some _ =>
      .ok ({ st with polls := assocRemove id st.polls },
           [Event.pollStop id, Event.respond (ARes.Stop (.ok id))])
  | none, none =>
      .ok (st, [Event.respond (ARes.Stop (.error
             ("activity " ++ toString id ++ " not found")))])
  | some _, some _ =>
      .panic ("found both process and poller for id=" ++ toString id)

/-- `Agent::collect_data`: assert both maps are empty (a panic otherwise), run
the archiver over the output directory and reply with the bytes or a failure. -/
def collect_data (env : AgentEnv) (st : AgentState) : AgentStep (AgentState × List Event) :=
  if st.polls.isEmpty then
    if st.procs.isEmpty then
      .ok (st, [Event.respond (ARes.Collect
            (match env.tar with
             | .ok d => .ok d
             | .error e => .error ("failed to collect data: " ++ e)))])
    else .panic "assertion failed: procs is_empty"
  else .panic "assertion failed: polls is_empty"

/-- `Agent::handle_message`: dispatch one non-terminal request.  `End` and
`Abort` are handled by the outer serve loop and are `unreachable!` here. -/
def handle_message (env : AgentEnv) (st : AgentState) :
    Request → AgentStep (AgentState × List Event)
  | .LookupPaths pattern =>
      .ok (st, [Event.respond (ARes.LookupPaths (lookup_paths env pattern))])
  | .Poll pattern =>
      match lookup_paths env pattern with
      | .error e => .ok (st, [Event.respond (ARes.Poll (.error e))])
      | .ok _ =>
          let r := spawn_poller st pattern
          .ok (r.1, r.2.1 ++ [Event.respond (ARes.Poll r.2.2)])
  | .Spawn cmd args mode =>
      (spawn_process env st cmd args mode).map
        (fun p => (p.1, p.2.1 ++ [Event.respond p.2.2]))
  | .Stop id => stop_task st id
  | .StopAll => stop_all st false true
  | .Collect => collect_data env st
  | .End => .panic "unreachable: End must be already processed outside"
  | .Abort => .panic "unreachable: Abort must be already processed outside"

/-- `Agent::serve`: process requests until `End` (graceful: the final implicit
stop-all runs with `abnormal = false`), `Abort` (emergency: `abnormal = true`)
or transport failure (the `[]` case here, treated like `Abort`); no response is
sent for the final implicit stop-all. -/
def serve (env : AgentEnv) (st : AgentState) :
    List Request → AgentStep (AgentState × List Event)
  | [] => stop_all st true false
  | .End :: _ => stop_all st false false
  | .Abort :: _ => stop_all st true false
  | req :: reqs =>
      match handle_message env st req with
      | .panic m => .panic m
      | .ok (st2, evs) =>
          match serve env st2 reqs with
          | .panic m => .panic m
          | .ok (st3, evs2) => .ok (st3, evs ++ evs2)

/-- A fresh agent (`Agent::new`): counter 0, both maps empty. -/
def initState (outdir : String) : AgentState :=
  { count := 0, outdir := outdir, polls := [], procs := [] }

/-- The id carried by a response to a `Poll` or `Spawn` request, if any. -/
def respId : ARes → Option Nat
  | .Poll (.ok id) => some id
  | .SpawnBg (.ok id) => some id
  | .SpawnFg (.ok (id, _, _)) => some id
  | _ => none

def eventRespId : Event → Option Nat
  | .respond r => respId r
  | _ => none

/-- The sequence of ids returned by the agent in its Poll/Spawn responses. -/
def returnedIds (evs : List Event) : List Nat :=
  evs.filterMap eventRespId

/-- Convenience: ids returned over a whole serve run (empty on panic). -/
def returnedIdsOf (r : AgentStep (AgentState × List Event)) : List Nat :=
  match r with
  | .ok p => returnedIds p.2
  | .panic _ => []

/-- The resource id of a stop action (signal, wait or poller stop). -/
def stopEventId : Event → Option Nat
  | .sigTerm id => some id
  | .procWait id => some id
  | .pollStop id => some id
  | _ => none

/-- Ids of the stop actions in order of occurrence. -/
def stoppedIds (evs : List Event) : List Nat :=
  evs.filterMap stopEventId

/-- The responses sent, in order. -/
def responsesOf (evs : List Event) : List ARes :=
  evs.filterMap (fun e => match e with | .respond r => some r | _ => none)

/-- Whether an event is a Spawn-failure response. -/
def isSpawnErr : Event → Bool
  | .respond (ARes.SpawnBg (.error _)) => true
  | .respond (ARes.SpawnFg (.error _)) => true
  | _ => false

/-- Well-formedness of the agent's resource maps, true of every state the real
agent can reach: ids are allocated from the counter (so lie in `1..=count`),
each map keys an id at most once, and no id is simultaneously a poller and a
process (invariant 3 of the spec, enforced by `assert!`s in the source). -/
def WfState (st : AgentState) : Prop :=
  (∀ q ∈ st.polls, 1 ≤ q.1 ∧ q.1 ≤ st.count) ∧
  (∀ q ∈ st.procs, 1 ≤ q.1 ∧ q.1 ≤ st.count) ∧
  (st.polls.map Prod.fst).Nodup ∧
  (st.procs.map Prod.fst).Nodup ∧
  (∀ q ∈ st.polls, ∀ r ∈ st.procs, q.1 ≠ r.1)

instance (st : AgentState) : Decidable (WfState st) := by
  unfold WfState; infer_instance

/-! ### Controller finalisation (src/controller.rs, `run`, collection phase) -/

/-- One retained plot hint as the controller keeps it: the activity name
together with `PlotHint = (Id, Option<String>)`. -/
abbrev Hint := String × Nat × Option String

/-- A stage group: the hints retained for one agent from one stage of the stop
phase (`total_hints` holds one such group per stage, in reverse stage order). -/
abbrev HintGroup := List Hint

/-- Observable actions of the controller's finalisation loop, per agent. -/
inductive CtrlEvent
  | send (r : Request)
  | recvArchive (data : List Nat)
  | mkAgentDir (path : String)
  | writeTgz (data : List Nat)
  | createMapFile
  | writeMapEntry (s : String)
  | closeConn
deriving DecidableEq

/-- The `format!("{id:03} {activity} {}", hint-or-empty)` line written for one
hint.  Note the source format string has no trailing newline. -/
def fmtHint (h : Hint) : String :=
  pad3 h.2.1 ++ " " ++ h.1 ++ " " ++ (match h.2.2 with | some s => s | none => "")

/-- The `for agent_hints in &total_hints` part of the finalisation loop: for
every stage group of this agent the controller calls `File::create` on out.map
again (truncating it) and writes that group's entries. -/
def writeMapsTrace (groups : List HintGroup) : List CtrlEvent :=
  groups.flatMap (fun g => CtrlEvent.createMapFile :: g.map (fun h => CtrlEvent.writeMapEntry (fmtHint h)))

/-- One iteration of the controller's finalisation loop (`run`, collection
phase) for one agent: create the agent's output dir, `connection::collect_data`
(send `Collect`, receive the archive), write out.tgz, then write the map
file(s).  `archive` is the payload the agent answers with. -/
def finalize_agent (agentDir : String) (archive : List Nat)
    (groups : List HintGroup) : List CtrlEvent :=
  [CtrlEvent.mkAgentDir agentDir,
   CtrlEvent.send Request.Collect,
   CtrlEvent.recvArchive archive,
   CtrlEvent.writeTgz archive] ++ writeMapsTrace groups

/-- Final content of `<outdir>/<agentId>/out.map` after the finalisation loop:
each matching stage group re-creates (truncates) the file and writes its
entries, so earlier groups are overwritten; `none` means the file was never
created. -/
def out_map_content (groups : List HintGroup) : Option String :=
  groups.foldl (fun _ g => some ((g.map fmtHint).foldl (fun acc s => acc ++ s) "")) none

/-- Modelled from the spec: the out.map content the claim describes — a single
file with one line per retained hint from the whole scenario, each line
`"{id:03} {activityName} {hintString?}"` terminated by a newline. -/
def out_map_content_claimed (groups : List HintGroup) : Option String :=
  some (String.join ((groups.flatMap (fun g => g)).map (fun h => fmtHint h ++ "\n")))

/-! ### Fio activity constructor (src/controller/activity.rs, `FioExport::creator`) -/

/-- INI-like fio configuration (src/types.rs). -/
structure IniLike where
  global : List String
  sections : List (String × List String)
deriving DecidableEq

/-- The `Launcher` activity value built by the fio creator (only the fields
fixed at construction time; the closure-valued hint is modelled by its
value). -/
structure LauncherCfg where
  comm : String
  mode : SpawnMode
  args : List String
  hint : Option String
deriving DecidableEq

/-- Rust's `line.split_once("=").unwrap().1`: everything after the first `=`.
(Every line this is applied to starts with `write_.._log=`, so an `=` is
always present and the `unwrap` cannot fail.) -/
def split_once_eq (line : String) : String :=
  match line.splitOn "=" with
  | [] => ""
  | _ :: rest => String.intercalate "=" rest

/-- Accumulator of the fio creator loop: the argument list under construction
and the three hint-filename lists. -/
abbrev FioAcc := List String × List String × List String × List String

/-- The body of the per-line loop in `FioExport::creator`: push `--line`, and
record the filename if the line sets one of the three log outputs. -/
def fio_line_step (a : FioAcc) (line : String) : FioAcc :=
  let args := a.1 ++ ["--" ++ line]
  if line.startsWith "write_bw_log=" then
    (args, a.2.1 ++ [split_once_eq line], a.2.2.1, a.2.2.2)
  else if line.startsWith "write_iops_log=" then
    (args, a.2.1, a.2.2.1 ++ [split_once_eq line], a.2.2.2)
  else if line.startsWith "write_lat_log=" then
    (args, a.2.1, a.2.2.1, a.2.2.2 ++ [split_once_eq line])
  else
    (args, a.2)

/-- The body of the per-section loop in `FioExport::creator`: push
`--name={section}`, run the per-line loop, then (`args.extend_from_slice`)
append `--{line}` for every line of the section once more. -/
def fio_section_step (a : FioAcc) (sec : String × List String) : FioAcc :=
  let a1 : FioAcc := (a.1 ++ ["--name=" ++ sec.1], a.2)
  let a2 := sec.2.foldl fio_line_step a1
  (a2.1 ++ sec.2.map (fun s => "--" ++ s), a2.2)

/-- `FioExport::creator`: reject a config without sections, translate the
global keys, run the section loop, and build a `BackgroundWait` fio launcher
whose hint joins the recorded log filenames (`:` within a kind, `,` between
the bw/iops/lat kinds), or no hint when none were recorded. -/
def fio_creator (ini : IniLike) : Except String LauncherCfg :=
  if ini.sections.isEmpty then
    .error "fio expects at least one section to run"
  else
    let init : FioAcc := (ini.global.map (fun s => "--" ++ s), [], [], [])
    let a := ini.sections.foldl fio_section_step init
    .ok { comm := "fio",
          mode := SpawnMode.BackgroundWait,
          args := a.1,
          hint :=
            if a.2.1.isEmpty && a.2.2.1.isEmpty && a.2.2.2.isEmpty then none
            else some (String.intercalate ","
              [String.intercalate ":" a.2.1,
               String.intercalate ":" a.2.2.1,
               String.intercalate ":" a.2.2.2]) }

/-- Modelled from the spec claim: the argument list with every key translated
into exactly one `--key`, each section's keys appearing once after its
`--name={section}`. -/
def fio_args_claimed (ini : IniLike) : List String :=
  ini.global.map (fun s => "--" ++ s) ++
    ini.sections.flatMap (fun sec => ("--name=" ++ sec.1) :: sec.2.map (fun s => "--" ++ s))

/-- The `write_bw_log=` filenames recorded by the fio creator loop, in order. -/
def fio_bw_logs (lines : List String) : List String :=
  lines.filterMap (fun l =>
    if l.startsWith "write_bw_log=" then some (split_once_eq l) else none)

/-- The `write_iops_log=` filenames recorded by the fio creator loop (the
source checks the prefixes in a fixed if-chain, mirrored here). -/
def fio_iops_logs (lines : List String) : List String :=
  lines.filterMap (fun l =>
    if l.startsWith "write_bw_log=" then none
    else if l.startsWith "write_iops_log=" then some (split_once_eq l) else none)

/-- The `write_lat_log=` filenames recorded by the fio creator loop. -/
def fio_lat_logs (lines : List String) : List String :=
  lines.filterMap (fun l =>
    if l.startsWith "write_bw_log=" then none
    else if l.startsWith "write_iops_log=" then none
    else if l.startsWith "write_lat_log=" then some (split_once_eq l) else none)

/-! ### Concrete oracles and states used to exercise the model -/

/-- A benign oracle: every expansion globs to one path, every filesystem
operation and every spawn succeeds. -/
def envAllOk : AgentEnv :=
  { braceExpand := fun p => [p]
  , glob := fun _ => .ok [.ok "/proc/stat"]
  , createFileNew := fun _ => true
  , createDir := fun _ => true
  , spawnBg := fun _ _ => .ok ()
  , runFg := fun _ _ => .ok ()
  , readFile := fun _ => [104]
  , tar := .ok [31, 139] }

/-- Like `envAllOk` but spawning the command "x" fails, and every foreground
run fails. -/
def envSpawnFail : AgentEnv :=
  { envAllOk with
    spawnBg := fun c _ => if c = "x" then .error "boom" else .ok ()
  , runFg := fun _ _ => .error "boom" }

/-- Like `envAllOk` but every glob yields zero matches. -/
def envGlobEmpty : AgentEnv :=
  { envAllOk with glob := fun _ => .ok [] }

/-- Like `envAllOk` but every `File::create_new` fails. -/
def envFileFail : AgentEnv :=
  { envAllOk with createFileNew := fun _ => false }

/-- Brace expansion of any pattern gives two parts "a" and "b", each globbing
to one path. -/
def envTwoParts : AgentEnv :=
  { envAllOk with
    braceExpand := fun _ => ["a", "b"]
  , glob := fun part => if part = "a" then .ok [.ok "pa"] else .ok [.ok "pb"] }

/-- Like `envTwoParts` but the expansion "b" globs to zero matches. -/
def envTwoPartsEmptyB : AgentEnv :=
  { envAllOk with
    braceExpand := fun _ => ["a", "b"]
  , glob := fun part => if part = "a" then .ok [.ok "pa"] else .ok [] }

/-- The match lists of `envTwoParts`, per expansion. -/
def fTwoParts : String → List String :=
  fun part => if part = "a" then ["pa"] else ["pb"]

/-- The match lists of `envTwoPartsEmptyB`, per expansion. -/
def fTwoPartsEmptyB : String → List String :=
  fun part => if part = "a" then ["pa"] else []

/-- An agent holding one poller (id 1) and one `BackgroundWait` process (id 2). -/
def stExample : AgentState :=
  { count := 2, outdir := "o"
  , polls := [(1, ⟨"/proc/meminfo"⟩)]
  , procs := [(2, ⟨true, "sleep 30"⟩)] }

end Pmppt

/-! ## Theorems -/

namespace Pmppt

/-- Support for C9: one pass of the per-line loop appends the translated lines
and the recorded log filenames. -/
theorem fio_line_fold (lines : List String) :
    ∀ a : FioAcc,
      lines.foldl fio_line_step a =
        (a.1 ++ lines.map (fun s => "--" ++ s),
         a.2.1 ++ fio_bw_logs lines,
         a.2.2.1 ++ fio_iops_logs lines,
         a.2.2.2 ++ fio_lat_logs lines) := by
  induction lines with
  | nil =>
      intro a
      simp [fio_bw_logs, fio_iops_logs, fio_lat_logs]
  | cons l ls ih =>
      intro a
      obtain ⟨a1, a2, a3, a4⟩ := a
      simp only [List.foldl_cons, ih]
      cases h1 : l.startsWith "write_bw_log=" <;>
        cases h2 : l.startsWith "write_iops_log=" <;>
          cases h3 : l.startsWith "write_lat_log=" <;>
            simp [fio_line_step, fio_bw_logs, fio_iops_logs, fio_lat_logs, h1, h2, h3,
              List.filterMap_cons, List.append_assoc]

/-- Support for C9: the per-section loop appends, for every section, the
`--name` marker followed by the section's translated keys twice. -/
theorem fio_section_fold (secs : List (String × List String)) :
    ∀ a : FioAcc,
      secs.foldl fio_section_step a =
        (a.1 ++ secs.flatMap (fun sec =>
            ("--name=" ++ sec.1) ::
              (sec.2.map (fun s => "--" ++ s) ++ sec.2.map (fun s => "--" ++ s))),
         a.2.1 ++ secs.flatMap (fun sec => fio_bw_logs sec.2),
         a.2.2.1 ++ secs.flatMap (fun sec => fio_iops_logs sec.2),
         a.2.2.2 ++ secs.flatMap (fun sec => fio_lat_logs sec.2)) := by
  induction secs with
  | nil =>
      intro a
      simp
  | cons sec rest ih =>
      intro a
      obtain ⟨a1, a2, a3, a4⟩ := a
      simp only [List.foldl_cons, fio_section_step, fio_line_fold, ih,
        List.flatMap_cons, List.append_assoc, List.cons_append, List.nil_append]

/-- C9 (corrected): `FioExport::creator` builds a BackgroundWait fio launcher;
each global key is translated into one `--key` argument, but each section's
keys appear TWICE after the `--name={section}` marker (the per-line loop pushes
them, then `extend_from_slice` appends the whole section again); the hint joins
all recorded `write_{bw,iops,lat}_log` filenames (`:` within a kind, `,`
between kinds), or is absent when none were recorded. -/
theorem c9_fio_creator_duplicates_section_keys (ini : IniLike) (h : ini.sections ≠ []) :
    fio_creator ini = .ok
      { comm := "fio"
      , mode := SpawnMode.BackgroundWait
      , args := ini.global.map (fun s => "--" ++ s) ++
          ini.sections.flatMap (fun sec =>
            ("--name=" ++ sec.1) ::
              (sec.2.map (fun s => "--" ++ s) ++ sec.2.map (fun s => "--" ++ s)))
      , hint :=
          if (ini.sections.flatMap (fun sec => fio_bw_logs sec.2)).isEmpty &&
             (ini.sections.flatMap (fun sec => fio_iops_logs sec.2)).isEmpty &&
             (ini.sections.flatMap (fun sec => fio_lat_logs sec.2)).isEmpty then none
          else some (String.intercalate ","
            [String.intercalate ":" (ini.sections.flatMap (fun sec => fio_bw_logs sec.2)),
             String.intercalate ":" (ini.sections.flatMap (fun sec => fio_iops_logs sec.2)),
             String.intercalate ":" (ini.sections.flatMap (fun sec => fio_lat_logs sec.2))]) } := by
  have hne : ini.sections.isEmpty = false := by
    cases hs : ini.sections with
    | nil => exact absurd hs h
    | cons a l => rfl
  simp only [fio_creator, hne, Bool.false_eq_true, if_false, fio_section_fold,
    List.nil_append]

/-- C9 witness: the creator applied to a one-section config. -/
theorem c9_witness :
    fio_creator ⟨["ioengine=libaio"], [("s", ["rw=read"])]⟩ = .ok
      { comm := "fio", mode := SpawnMode.BackgroundWait
      , args := ["--ioengine=libaio", "--name=s", "--rw=read", "--rw=read"]
      , hint := none } :=
  c9_fio_creator_duplicates_section_keys ⟨["ioengine=libaio"], [("s", ["rw=read"])]⟩ (by decide)

/-- C9 counterexample: for the config with one section `s` holding the single
key `rw=read`, the creator emits `--rw=read` twice, not exactly once as the
claim states. -/
theorem c9_counterexample :
    fio_creator ⟨[], [("s", ["rw=read"])]⟩ = .ok
      { comm := "fio", mode := SpawnMode.BackgroundWait
      , args := ["--name=s", "--rw=read", "--rw=read"], hint := none } ∧
    fio_args_claimed ⟨[], [("s", ["rw=read"])]⟩ = ["--name=s", "--rw=read"] ∧
    (["--name=s", "--rw=read", "--rw=read"] : List String) ≠ ["--name=s", "--rw=read"] := by
  refine ⟨rfl, rfl, by decide⟩


/-- C1 (the code at the failing input): the wire codec cannot represent
`LookupPaths` at all — the msgpack enums have no such variant and the
`From` conversions have no arm for it — so encoding a `LookupPaths` request
or response fails and no round-trip is possible for it. -/
theorem c1_lookup_paths_not_encodable :
    requestToWire (Request.LookupPaths "/a/x*") = none ∧
    requestRoundTrip (Request.LookupPaths "/a/x*") = none ∧
    responseToWire (Response.LookupPaths (Except.ok ["/a/x1"])) = none ∧
    responseRoundTrip (Response.LookupPaths (Except.ok ["/a/x1"])) = none :=
  ⟨rfl, rfl, rfl, rfl⟩

/-- Support for C2: the map-writing part of the finalisation loop never sends
anything on the connection and never closes it. -/
theorem writeMapsTrace_shape (groups : List HintGroup) :
    ∀ e ∈ writeMapsTrace groups,
      (∀ r : Request, e ≠ CtrlEvent.send r) ∧ e ≠ CtrlEvent.closeConn := by
  intro e he
  rw [writeMapsTrace, List.mem_flatMap] at he
  obtain ⟨g, hg, hm⟩ := he
  rw [List.mem_cons] at hm
  rcases hm with rfl | hm
  · exact ⟨fun r => by simp, by simp⟩
  · rw [List.mem_map] at hm
    obtain ⟨x, hx, rfl⟩ := hm
    exact ⟨fun r => by simp, by simp⟩

/-- C2 (corrected): the controller finalisation, per agent, sends only
`Collect` on the connection (receiving the archive and writing it out); it
never sends `StopAll`, never sends `End`, and never closes the connection. -/
theorem c2_finalisation_sends_only_collect (agentDir : String) (archive : List Nat)
    (groups : List HintGroup) :
    (∀ r : Request, CtrlEvent.send r ∈ finalize_agent agentDir archive groups →
       r = Request.Collect) ∧
    CtrlEvent.send Request.Collect ∈ finalize_agent agentDir archive groups ∧
    CtrlEvent.send Request.StopAll ∉ finalize_agent agentDir archive groups ∧
    CtrlEvent.send Request.End ∉ finalize_agent agentDir archive groups ∧
    CtrlEvent.closeConn ∉ finalize_agent agentDir archive groups ∧
    CtrlEvent.writeTgz archive ∈ finalize_agent agentDir archive groups := by
  have honly : ∀ r : Request, CtrlEvent.send r ∈ finalize_agent agentDir archive groups →
      r = Request.Collect := by
    intro r hr
    rw [finalize_agent] at hr
    rcases List.mem_append.mp hr with h4 | hmap
    · simp only [List.mem_cons, List.not_mem_nil, or_false] at h4
      rcases h4 with h | h | h | h <;> simp_all
    · exact absurd rfl ((writeMapsTrace_shape groups _ hmap).1 r)
  refine ⟨honly, ?_, ?_, ?_, ?_, ?_⟩
  · simp [finalize_agent]
  · intro h; exact absurd (honly _ h) (by simp)
  · intro h; exact absurd (honly _ h) (by simp)
  · intro h
    rw [finalize_agent] at h
    rcases List.mem_append.mp h with h4 | hmap
    · simp at h4
    · exact absurd rfl ((writeMapsTrace_shape groups _ hmap).2)
  · simp [finalize_agent]

/-- C2 counterexample: at a concrete finalisation (an archive of one byte, one
retained hint), no `StopAll` and no `End` is ever sent and the connection is
not closed, refuting the claimed StopAll-then-Collect-then-End-then-close
sequence at this input. -/
theorem c2_counterexample :
    CtrlEvent.send Request.StopAll ∉ finalize_agent "o/a1" [37] [[("act", 1, none)]] ∧
    CtrlEvent.send Request.End ∉ finalize_agent "o/a1" [37] [[("act", 1, none)]] ∧
    CtrlEvent.closeConn ∉ finalize_agent "o/a1" [37] [[("act", 1, none)]] := by
  decide

/-- Support for C8: a fold that ignores its accumulator keeps only the last
write. -/
theorem out_map_foldl (groups : List HintGroup) :
    ∀ init : Option String,
      groups.foldl (fun _ g => some ((g.map fmtHint).foldl (fun acc s => acc ++ s) "")) init =
        match groups.getLast? with
        | none => init
        | some g => some ((g.map fmtHint).foldl (fun acc s => acc ++ s) "") := by
  induction groups with
  | nil => intro init; rfl
  | cons g gs ih =>
      intro init
      rw [List.foldl_cons, ih]
      cases gs with
      | nil => simp
      | cons g2 gs2 =>
          obtain ⟨gl, h⟩ : ∃ gl, (g2 :: gs2).getLast? = some gl := by
            cases h2 : (g2 :: gs2).getLast? with
            | none => exact absurd (List.getLast?_eq_none_iff.mp h2) (by simp)
            | some x => exact ⟨x, rfl⟩
          rw [h, List.getLast?_cons_cons, h]

/-- C8 (corrected): the final content of out.map is the concatenation of the
formatted entries of the LAST stage group processed for that agent — every
group re-creates (truncates) the file, so earlier groups are lost — and the
entries are joined with no newline separator (`fmtHint` emits none). -/
theorem c8_out_map_keeps_last_group_unterminated (groups : List HintGroup) :
    out_map_content groups = groups.getLast?.map (fun g => String.join (g.map fmtHint)) := by
  rw [out_map_content, out_map_foldl]
  cases h : groups.getLast? <;> simp [String.join]

/-- C8 counterexample: with one hint retained in each of two stage groups, the
file holds only the last group entry and no newline, not one
newline-terminated line per hint of the whole scenario. -/
theorem c8_counterexample :
    out_map_content [[("a", 1, some "h")], [("b", 2, none)]] = some "002 b " ∧
    out_map_content_claimed [[("a", 1, some "h")], [("b", 2, none)]] =
      some ("001 a h" ++ "\n" ++ "002 b " ++ "\n") ∧
    out_map_content [[("a", 1, some "h")], [("b", 2, none)]] ≠
      out_map_content_claimed [[("a", 1, some "h")], [("b", 2, none)]] := by
  refine ⟨rfl, rfl, by decide⟩



/-- Support for C7: pushing a glob iterator whose items are all paths appends
exactly those paths. -/
theorem pushMatches_ok (part : String) :
    ∀ (l : List String) (acc : List String),
      pushMatches part acc (l.map Except.ok) = .ok (acc ++ l) := by
  intro l
  induction l with
  | nil => intro acc; simp [pushMatches]
  | cons x xs ih =>
      intro acc
      simp only [List.map_cons, pushMatches, ih, List.append_assoc, List.cons_append,
        List.nil_append, List.singleton_append]

/-- Support for C7: when every expansion globs without item errors and adds at
least one path, the loop accumulates the concatenation and then applies the
final emptiness check. -/
theorem lookupGo_all_ok (env : AgentEnv) (pattern : String) (f : String → List String) :
    ∀ (parts : List String) (acc : List String),
      (∀ part ∈ parts, env.glob part = .ok ((f part).map Except.ok) ∧ f part ≠ []) →
      lookupGo env pattern parts acc =
        (if (acc ++ parts.flatMap f).isEmpty then
          .error ("got empty search result on expanding " ++ pattern)
         else .ok (acc ++ parts.flatMap f)) := by
  intro parts
  induction parts with
  | nil =>
      intro acc _
      simp [lookupGo]
  | cons part parts ih =>
      intro acc hall
      obtain ⟨hg, hne⟩ := hall part (by simp)
      have hlen : (acc ++ f part).length ≠ acc.length := by
        simp only [List.length_append]
        intro hc
        exact hne (List.eq_nil_of_length_eq_zero (by omega))
      simp only [lookupGo, hg, pushMatches_ok]
      rw [if_neg hlen, ih (acc ++ f part) (fun q hq => hall q (by simp [hq]))]
      simp [List.append_assoc]

/-- Support for C7: the first expansion that globs to zero matches fails the
whole lookup with the message naming it (provided the earlier expansions all
added paths). -/
theorem lookupGo_error_at (env : AgentEnv) (pattern : String) (f : String → List String) :
    ∀ (pre : List String) (part : String) (post : List String) (acc : List String),
      (∀ q ∈ pre, env.glob q = .ok ((f q).map Except.ok) ∧ f q ≠ []) →
      env.glob part = .ok [] →
      lookupGo env pattern (pre ++ part :: post) acc =
        .error ("in " ++ pattern ++ " got empty search result for " ++ part) := by
  intro pre
  induction pre with
  | nil =>
      intro part post acc _ hpart
      have : pushMatches part acc [] = .ok acc := rfl
      simp [lookupGo, hpart, this]
  | cons q qs ih =>
      intro part post acc hall hpart
      obtain ⟨hg, hne⟩ := hall q (by simp)
      have hlen : (acc ++ f q).length ≠ acc.length := by
        simp only [List.length_append]
        intro hc
        exact hne (List.eq_nil_of_length_eq_zero (by omega))
      simp only [List.cons_append, lookupGo, hg, pushMatches_ok, hlen, if_false]
      exact ih part post (acc ++ f q) (fun r hr => hall r (by simp [hr])) hpart

/-- C7 (confirmed): `Agent::lookup_paths` (used by both `LookupPaths` and
`Poll`) brace-expands the pattern, globs each expansion, and returns the
concatenation of the match lists in expansion order; if any single brace
expansion globs to zero matches (all earlier ones being non-empty), the whole
call returns an error whose message names the offending expansion. -/
theorem c7_lookup_paths_brace_glob (env : AgentEnv) (pattern : String)
    (f : String → List String)
    (hglob : ∀ part ∈ env.braceExpand pattern,
        env.glob part = .ok ((f part).map Except.ok)) :
    ((env.braceExpand pattern ≠ [] ∧ ∀ part ∈ env.braceExpand pattern, f part ≠ []) →
      lookup_paths env pattern = .ok ((env.braceExpand pattern).flatMap f)) ∧
    (∀ pre part post,
      env.braceExpand pattern = pre ++ part :: post →
      (∀ q ∈ pre, f q ≠ []) →
      env.glob part = .ok [] →
      lookup_paths env pattern =
        .error ("in " ++ pattern ++ " got empty search result for " ++ part)) := by
  constructor
  · rintro ⟨hne, hnonempty⟩
    rw [lookup_paths, lookupGo_all_ok env pattern f _ []
      (fun q hq => ⟨hglob q hq, hnonempty q hq⟩)]
    cases hp : env.braceExpand pattern with
    | nil => exact absurd hp hne
    | cons p ps =>
        have : f p ≠ [] := hnonempty p (by rw [hp]; simp)
        have hfne : (f p ++ ps.flatMap f) ≠ [] := by
          intro hc
          exact this (List.append_eq_nil.mp hc).1
        simp only [List.nil_append, hp, List.flatMap_cons]
        rw [if_neg (by simpa [List.isEmpty_iff] using hfne)]
  · intro pre part post hsplit hpre hempty
    rw [lookup_paths, hsplit]
    exact lookupGo_error_at env pattern f pre part post []
      (fun q hq => ⟨hglob q (by rw [hsplit]; simp [hq]), hpre q hq⟩) hempty

/-- C7 witness: a two-expansion pattern where both expansions match, and the
same pattern where the second expansion matches nothing. -/
theorem c7_witness :
    lookup_paths envTwoParts "pAB" = .ok ["pa", "pb"] ∧
    lookup_paths envTwoPartsEmptyB "pAB" =
      .error ("in " ++ "pAB" ++ " got empty search result for " ++ "b") := by
  constructor
  · have h := (c7_lookup_paths_brace_glob envTwoParts "pAB" fTwoParts
      (by intro part hp; fin_cases hp <;> rfl)).1
      ⟨by decide, by intro part hp; fin_cases hp <;> decide⟩
    simpa using h
  · exact (c7_lookup_paths_brace_glob envTwoPartsEmptyB "pAB" fTwoPartsEmptyB
      (by intro part hp; fin_cases hp <;> rfl)).2
      ["a"] "b" [] rfl (by intro q hq; fin_cases hq <;> decide) rfl

/-- C10 (confirmed): a `Poll` request whose pattern resolution fails is
answered with exactly the error response and the agent state is completely
unchanged — no id is allocated, no poller is registered, no file event is
produced — so the rest of the session behaves exactly as if the failed Poll
had never been received (up to the extra error response). -/
theorem c10_poll_failure_keeps_state (env : AgentEnv) (st : AgentState)
    (pattern msg : String) (rs : List Request)
    (h : lookup_paths env pattern = .error msg) :
    handle_message env st (.Poll pattern) =
      .ok (st, [Event.respond (ARes.Poll (.error msg))]) ∧
    serve env st (.Poll pattern :: rs) =
      (serve env st rs).map (fun p => (p.1, Event.respond (ARes.Poll (.error msg)) :: p.2)) := by
  have h1 : handle_message env st (.Poll pattern) =
      .ok (st, [Event.respond (ARes.Poll (.error msg))]) := by
    simp [handle_message, h]
  refine ⟨h1, ?_⟩
  cases hs : serve env st rs with
  | panic m => simp only [serve, h1, hs, AgentStep.map]
  | ok p =>
      cases p with
      | mk st3 evs2 => simp only [serve, h1, hs, AgentStep.map, List.singleton_append]

/-- C10 witness: with an oracle whose globs are all empty, a failed Poll on a
fresh agent leaves the fresh state and answers with the error naming the
pattern. -/
theorem c10_witness :
    handle_message envGlobEmpty (initState "o") (.Poll "pat") =
      .ok (initState "o",
        [Event.respond (ARes.Poll (.error
          ("in " ++ "pat" ++ " got empty search result for " ++ "pat")))]) ∧
    serve envGlobEmpty (initState "o") [Request.Poll "pat", Request.StopAll] =
      (serve envGlobEmpty (initState "o") [Request.StopAll]).map
        (fun p => (p.1, Event.respond (ARes.Poll (.error
          ("in " ++ "pat" ++ " got empty search result for " ++ "pat"))) :: p.2)) :=
  c10_poll_failure_keeps_state envGlobEmpty (initState "o") "pat"
    ("in " ++ "pat" ++ " got empty search result for " ++ "pat") [Request.StopAll] rfl



/-- C6 counterexample: when creating `out.log` fails, the agent panics
(`File::create_new(..).unwrap()`) instead of answering the Spawn request with
an error response. -/
theorem c6_counterexample :
    (handle_message envFileFail (initState "o")
      (Request.Spawn "c" [] SpawnMode.BackgroundWait)).isPanic = true :=
  rfl

/-- C6 (corrected): only a failed process spawn (or a failed foreground run) is
returned as `Err(msg)` in the matching Spawn response with the agent state
advancing only its id counter; failures creating the log files or the data
directory are `unwrap`ed and terminate the agent (see the counterexample). -/
theorem c6_spawn_failure_as_response (env : AgentEnv) (st : AgentState)
    (cmd : String) (args : List String) (e : String)
    (hcf : ∀ p, env.createFileNew p = true)
    (hcd : ∀ p, env.createDir p = true) :
    (∀ mode, mode ≠ SpawnMode.Foreground → env.spawnBg cmd args = .error e →
      ∃ evs, handle_message env st (.Spawn cmd args mode) =
          .ok ({ st with count := st.count + 1 }, evs) ∧
        Event.respond (ARes.SpawnBg (.error ("failed to spawn bg process: " ++ e))) ∈ evs) ∧
    (env.runFg cmd args = .error e →
      ∃ evs, handle_message env st (.Spawn cmd args .Foreground) =
          .ok ({ st with count := st.count + 1 }, evs) ∧
        Event.respond (ARes.SpawnFg (.error ("failed to spawn fg process: " ++ e))) ∈ evs) := by
  constructor
  · intro mode hmode hsp
    cases mode with
    | Foreground => exact absurd rfl hmode
    | BackgroundWait =>
        refine ⟨[Event.fileCreate (st.outdir ++ "/" ++ pad3 (st.count + 1) ++ "-out.log"),
                 Event.fileCreate (st.outdir ++ "/" ++ pad3 (st.count + 1) ++ "-err.log"),
                 Event.dirCreate (st.outdir ++ "/" ++ pad3 (st.count + 1) ++ "-data"),
                 Event.respond (ARes.SpawnBg (.error ("failed to spawn bg process: " ++ e)))],
                ?_, by simp⟩
        simp [handle_message, spawn_process, spawn_process_background, get_next_id,
          hcf, hcd, hsp, AgentStep.map]
    | BackgroundKill =>
        refine ⟨[Event.fileCreate (st.outdir ++ "/" ++ pad3 (st.count + 1) ++ "-out.log"),
                 Event.fileCreate (st.outdir ++ "/" ++ pad3 (st.count + 1) ++ "-err.log"),
                 Event.dirCreate (st.outdir ++ "/" ++ pad3 (st.count + 1) ++ "-data"),
                 Event.respond (ARes.SpawnBg (.error ("failed to spawn bg process: " ++ e)))],
                ?_, by simp⟩
        simp [handle_message, spawn_process, spawn_process_background, get_next_id,
          hcf, hcd, hsp, AgentStep.map]
  · intro hfg
    refine ⟨[Event.fileCreate (st.outdir ++ "/" ++ pad3 (st.count + 1) ++ "-out.log"),
             Event.fileCreate (st.outdir ++ "/" ++ pad3 (st.count + 1) ++ "-err.log"),
             Event.dirCreate (st.outdir ++ "/" ++ pad3 (st.count + 1) ++ "-data"),
             Event.respond (ARes.SpawnFg (.error ("failed to spawn fg process: " ++ e)))],
            ?_, by simp⟩
    simp [handle_message, spawn_process, spawn_process_foreground, get_next_id,
      hcf, hcd, hfg, AgentStep.map]

/-- C6 witness: a concrete oracle whose spawns fail while the filesystem works. -/
theorem c6_witness :
    (∃ evs, handle_message envSpawnFail (initState "o")
        (.Spawn "x" [] .BackgroundKill) = .ok ({ initState "o" with count := 1 }, evs) ∧
      Event.respond (ARes.SpawnBg (.error ("failed to spawn bg process: " ++ "boom"))) ∈ evs) ∧
    (∃ evs, handle_message envSpawnFail (initState "o")
        (.Spawn "x" [] .Foreground) = .ok ({ initState "o" with count := 1 }, evs) ∧
      Event.respond (ARes.SpawnFg (.error ("failed to spawn fg process: " ++ "boom"))) ∈ evs) :=
  ⟨(c6_spawn_failure_as_response envSpawnFail (initState "o") "x" [] "boom"
      (fun _ => rfl) (fun _ => rfl)).1 .BackgroundKill (by decide) rfl,
   (c6_spawn_failure_as_response envSpawnFail (initState "o") "x" [] "boom"
      (fun _ => rfl) (fun _ => rfl)).2 rfl⟩



/-- Support: an absent key means every entry has a different key. -/
theorem assocFind_eq_none {α : Type} (id : Nat) (l : List (Nat × α)) :
    assocFind id l = none ↔ ∀ q ∈ l, q.1 ≠ id := by
  simp [assocFind, List.find?_eq_none]

/-- Support: a found entry is in the list. -/
theorem assocFind_mem {α : Type} {id : Nat} {l : List (Nat × α)} {a : α}
    (h : assocFind id l = some a) : (id, a) ∈ l := by
  rw [assocFind] at h
  cases hf : l.find? (fun p => p.1 == id) with
  | none => rw [hf] at h; cases h
  | some q =>
      rw [hf] at h
      have hmem := List.mem_of_find?_eq_some hf
      have hp := List.find?_some hf
      have hq1 : q.1 = id := by simpa using hp
      have hq2 : q.2 = a := by simpa using h
      have : q = (id, a) := by
        cases q
        simp_all
      rw [this] at hmem
      exact hmem

/-- Support: with nodup keys an id determines its entry. -/
theorem assoc_unique {α : Type} :
    ∀ {l : List (Nat × α)}, (l.map Prod.fst).Nodup →
      ∀ {id : Nat} {a b : α}, (id, a) ∈ l → (id, b) ∈ l → a = b := by
  intro l
  induction l with
  | nil => intro _ _ _ _ ha; cases ha
  | cons q rest ih =>
      intro hnd id a b ha hb
      rw [List.map_cons, List.nodup_cons] at hnd
      have hkey : id ∉ rest.map Prod.fst → ∀ x : α, (id, x) ∉ rest := by
        intro hn x hx
        exact hn (List.mem_map.mpr ⟨(id, x), hx, rfl⟩)
      rcases List.mem_cons.mp ha with h | ha2
      · rcases List.mem_cons.mp hb with h2 | hb2
        · have hab : (id, a) = (id, b) := h.trans h2.symm
          exact ((Prod.mk.injEq _ _ _ _).mp hab).2
        · exfalso
          have h1 : q.1 = id := by rw [← h]
          rw [h1] at hnd
          exact hkey hnd.1 b hb2
      · rcases List.mem_cons.mp hb with h2 | hb2
        · exfalso
          have h1 : q.1 = id := by rw [← h2]
          rw [h1] at hnd
          exact hkey hnd.1 a ha2
        · exact ih hnd.2 ha2 hb2

/-- Support: membership after a removal. -/
theorem mem_assocRemove_iff {α : Type} {q : Nat × α} {id : Nat} {l : List (Nat × α)} :
    q ∈ assocRemove id l ↔ q ∈ l ∧ q.1 ≠ id := by
  simp [assocRemove, List.mem_filter]

/-- Support: removal keeps the keys nodup. -/
theorem assocRemove_keys_nodup {α : Type} {l : List (Nat × α)}
    (h : (l.map Prod.fst).Nodup) (id : Nat) :
    ((assocRemove id l).map Prod.fst).Nodup :=
  h.sublist ((List.filter_sublist l).map Prod.fst)

theorem stoppedIds_append (a b : List Event) :
    stoppedIds (a ++ b) = stoppedIds a ++ stoppedIds b :=
  List.filterMap_append a b stopEventId

theorem responsesOf_append (a b : List Event) :
    responsesOf (a ++ b) = responsesOf a ++ responsesOf b :=
  List.filterMap_append a b _

/-- Support: every stop action of `stop_process` concerns exactly its id. -/
theorem stop_process_ids_eq (id : Nat) (proc : ProcInfo) (force : Bool) :
    ∀ i ∈ stoppedIds (stop_process id proc force), i = id := by
  rw [stop_process]
  cases h : (!proc.wait4 || force) <;> simp [stoppedIds, stopEventId]

theorem stop_process_sorted (id : Nat) (proc : ProcInfo) (force : Bool) :
    List.Pairwise (· ≥ ·) (stoppedIds (stop_process id proc force)) := by
  rw [stop_process]
  cases h : (!proc.wait4 || force) <;> simp [stoppedIds, stopEventId]

theorem stop_process_no_resp (id : Nat) (proc : ProcInfo) (force : Bool) :
    responsesOf (stop_process id proc force) = [] := by
  rw [stop_process]
  cases h : (!proc.wait4 || force) <;> simp [responsesOf]

theorem stop_process_wait_mem (id : Nat) (proc : ProcInfo) (force : Bool) :
    Event.procWait id ∈ stop_process id proc force := by
  rw [stop_process]
  cases h : (!proc.wait4 || force) <;> simp

theorem stop_process_sigTerm_mem {i id : Nat} {proc : ProcInfo} {force : Bool}
    (h : Event.sigTerm i ∈ stop_process id proc force) :
    i = id ∧ (proc.wait4 = false ∨ force = true) := by
  rw [stop_process] at h
  by_cases hb : (!proc.wait4 || force) = true
  · rw [if_pos hb] at h
    simp only [List.cons_append, List.nil_append, List.mem_cons, List.not_mem_nil,
      or_false] at h
    rcases h with h | h
    · refine ⟨by simpa using h, ?_⟩
      simpa [Bool.or_eq_true, Bool.not_eq_true'] using hb
    · simp at h
  · rw [if_neg hb] at h
    simp at h

/-- Support (the workhorse for C3 and C4): the `stop_all` loop, run from a
well-formed pair of maps, succeeds, empties both maps, performs the stop
actions in descending id order, sends nothing, stops every process according
to its `wait4` flag and the abnormal flag, stops every poller, and only
signals processes whose flags demand it. -/
theorem stop_loop_spec (abnormal : Bool) :
    ∀ (n : Nat) (polls : List (Nat × PollInfo)) (procs : List (Nat × ProcInfo)),
      (∀ q ∈ polls, 1 ≤ q.1 ∧ q.1 ≤ n) →
      (∀ q ∈ procs, 1 ≤ q.1 ∧ q.1 ≤ n) →
      (polls.map Prod.fst).Nodup →
      (procs.map Prod.fst).Nodup →
      (∀ q ∈ polls, ∀ r ∈ procs, q.1 ≠ r.1) →
      ∃ evs,
        stop_loop abnormal n polls procs = .ok (evs, [], []) ∧
        (∀ i ∈ stoppedIds evs, i ≤ n) ∧
        List.Pairwise (· ≥ ·) (stoppedIds evs) ∧
        responsesOf evs = [] ∧
        (∀ q ∈ procs, (stop_process q.1 q.2 abnormal).Sublist evs) ∧
        (∀ q ∈ polls, Event.pollStop q.1 ∈ evs) ∧
        (∀ i, Event.sigTerm i ∈ evs →
          ∃ pr, (i, pr) ∈ procs ∧ (pr.wait4 = false ∨ abnormal = true)) := by
  intro n
  induction n with
  | zero =>
      intro polls procs hpb hqb hnd1 hnd2 hdisj
      have hp : polls = [] := by
        cases polls with
        | nil => rfl
        | cons q rest => exact absurd (hpb q (by simp)) (by omega)
      have hq : procs = [] := by
        cases procs with
        | nil => rfl
        | cons q rest => exact absurd (hqb q (by simp)) (by omega)
      subst hp; subst hq
      exact ⟨[], rfl, by simp [stoppedIds], by simp [stoppedIds],
             by simp [responsesOf], by simp, by simp, by simp⟩
  | succ n ih =>
      intro polls procs hpb hqb hnd1 hnd2 hdisj
      cases hfp : assocFind (n + 1) procs with
      | some proc =>
          cases hfq : assocFind (n + 1) polls with
          | some poll =>
              exact absurd rfl (hdisj _ (assocFind_mem hfq) _ (assocFind_mem hfp))
          | none =>
              have hpb2 : ∀ q ∈ polls, 1 ≤ q.1 ∧ q.1 ≤ n := by
                intro q hq
                have hne := (assocFind_eq_none _ _).mp hfq q hq
                have := hpb q hq
                omega
              have hqb2 : ∀ q ∈ assocRemove (n + 1) procs, 1 ≤ q.1 ∧ q.1 ≤ n := by
                intro q hq
                obtain ⟨hmem, hne⟩ := mem_assocRemove_iff.mp hq
                have := hqb q hmem
                omega
              have hdisj2 : ∀ q ∈ polls, ∀ r ∈ assocRemove (n + 1) procs, q.1 ≠ r.1 :=
                fun q hq r hr => hdisj q hq r (mem_assocRemove_iff.mp hr).1
              obtain ⟨evs, heq, hbound, hsorted, hresp, hprocs, hpolls, hsig⟩ :=
                ih polls (assocRemove (n + 1) procs) hpb2 hqb2 hnd1
                  (assocRemove_keys_nodup hnd2 (n + 1)) hdisj2
              refine ⟨stop_process (n + 1) proc abnormal ++ evs, ?_, ?_, ?_, ?_, ?_, ?_, ?_⟩
              · simp only [stop_loop, hfp, hfq, heq, AgentStep.map]
              · intro i hi
                rw [stoppedIds_append] at hi
                rcases List.mem_append.mp hi with hi | hi
                · have := stop_process_ids_eq (n + 1) proc abnormal i hi
                  omega
                · have := hbound i hi
                  omega
              · rw [stoppedIds_append, List.pairwise_append]
                refine ⟨stop_process_sorted .., hsorted, ?_⟩
                intro a ha b hb
                have ha2 := stop_process_ids_eq (n + 1) proc abnormal a ha
                have hb2 := hbound b hb
                omega
              · rw [responsesOf_append, stop_process_no_resp, hresp]
                rfl
              · intro q hqmem
                cases q with
                | mk k v =>
                    by_cases hcase : k = n + 1
                    · subst hcase
                      have hv : v = proc := assoc_unique hnd2 hqmem (assocFind_mem hfp)
                      subst hv
                      exact List.sublist_append_left _ _
                    · have hq2 : (k, v) ∈ assocRemove (n + 1) procs :=
                        mem_assocRemove_iff.mpr ⟨hqmem, hcase⟩
                      exact (hprocs (k, v) hq2).trans (List.sublist_append_right _ _)
              · intro q hq
                exact List.mem_append_right _ (hpolls q hq)
              · intro i hi
                rcases List.mem_append.mp hi with hi | hi
                · obtain ⟨hieq, hcond⟩ := stop_process_sigTerm_mem hi
                  subst hieq
                  exact ⟨proc, assocFind_mem hfp, hcond⟩
                · obtain ⟨pr, hmem, hcond⟩ := hsig i hi
                  exact ⟨pr, (mem_assocRemove_iff.mp hmem).1, hcond⟩
      | none =>
          cases hfq : assocFind (n + 1) polls with
          | some poll =>
              have hqb2 : ∀ q ∈ procs, 1 ≤ q.1 ∧ q.1 ≤ n := by
                intro q hq
                have hne := (assocFind_eq_none _ _).mp hfp q hq
                have := hqb q hq
                omega
              have hpb2 : ∀ q ∈ assocRemove (n + 1) polls, 1 ≤ q.1 ∧ q.1 ≤ n := by
                intro q hq
                obtain ⟨hmem, hne⟩ := mem_assocRemove_iff.mp hq
                have := hpb q hmem
                omega
              have hdisj2 : ∀ q ∈ assocRemove (n + 1) polls, ∀ r ∈ procs, q.1 ≠ r.1 :=
                fun q hq r hr => hdisj q (mem_assocRemove_iff.mp hq).1 r hr
              obtain ⟨evs, heq, hbound, hsorted, hresp, hprocs, hpolls, hsig⟩ :=
                ih (assocRemove (n + 1) polls) procs hpb2 hqb2
                  (assocRemove_keys_nodup hnd1 (n + 1)) hnd2 hdisj2
              refine ⟨Event.pollStop (n + 1) :: evs, ?_, ?_, ?_, ?_, ?_, ?_, ?_⟩
              · simp only [stop_loop, hfp, hfq, heq, AgentStep.map]
              · intro i hi
                rw [show Event.pollStop (n + 1) :: evs = [Event.pollStop (n + 1)] ++ evs from rfl,
                  stoppedIds_append] at hi
                rcases List.mem_append.mp hi with hi | hi
                · have : i = n + 1 := by simpa [stoppedIds, stopEventId] using hi
                  omega
                · have := hbound i hi
                  omega
              · rw [show Event.pollStop (n + 1) :: evs = [Event.pollStop (n + 1)] ++ evs from rfl,
                  stoppedIds_append, List.pairwise_append]
                refine ⟨by simp [stoppedIds, stopEventId], hsorted, ?_⟩
                intro a ha b hb
                have ha2 : a = n + 1 := by simpa [stoppedIds, stopEventId] using ha
                have hb2 := hbound b hb
                omega
              · rw [show Event.pollStop (n + 1) :: evs = [Event.pollStop (n + 1)] ++ evs from rfl,
                  responsesOf_append, hresp]
                rfl
              · intro q hqmem
                exact (hprocs q hqmem).trans ((List.sublist_cons_self _ _))
              · intro q hq
                cases q with
                | mk k v =>
                    by_cases hcase : k = n + 1
                    · subst hcase
                      exact List.mem_cons_self _ _
                    · have hq2 : (k, v) ∈ assocRemove (n + 1) polls :=
                        mem_assocRemove_iff.mpr ⟨hq, hcase⟩
                      exact List.mem_cons_of_mem _ (hpolls (k, v) hq2)
              · intro i hi
                rcases List.mem_cons.mp hi with hi | hi
                · cases hi
                · exact hsig i hi
          | none =>
              have hpb2 : ∀ q ∈ polls, 1 ≤ q.1 ∧ q.1 ≤ n := by
                intro q hq
                have hne := (assocFind_eq_none _ _).mp hfq q hq
                have := hpb q hq
                omega
              have hqb2 : ∀ q ∈ procs, 1 ≤ q.1 ∧ q.1 ≤ n := by
                intro q hq
                have hne := (assocFind_eq_none _ _).mp hfp q hq
                have := hqb q hq
                omega
              obtain ⟨evs, heq, hbound, hsorted, hresp, hprocs, hpolls, hsig⟩ :=
                ih polls procs hpb2 hqb2 hnd1 hnd2 hdisj
              refine ⟨evs, ?_, fun i hi => Nat.le_succ_of_le (hbound i hi), hsorted, hresp,
                hprocs, hpolls, hsig⟩
              simp only [stop_loop, hfp, hfq, heq]



/-- C3 (confirmed): handling `StopAll` stops the live resources in descending
id order (the id sequence of the stop actions is non-increasing, and distinct
resources have distinct ids, so for `id(a) < id(b)` every stop action of `b`
precedes every stop action of `a`), empties both maps, actually stops every
live process and poller, and sends exactly one success response. -/
theorem c3_stop_all_descending (st : AgentState) (h : WfState st) :
    ∃ evs,
      stop_all st false true = .ok ({ st with polls := [], procs := [] }, evs) ∧
      responsesOf evs = [ARes.StopAll (.ok ())] ∧
      List.Pairwise (· ≥ ·) (stoppedIds evs) ∧
      (∀ q ∈ st.procs, Event.procWait q.1 ∈ evs) ∧
      (∀ q ∈ st.polls, Event.pollStop q.1 ∈ evs) := by
  obtain ⟨hpb, hqb, hnd1, hnd2, hdisj⟩ := h
  obtain ⟨evs0, heq, hbound, hsorted, hresp, hprocs, hpolls, hsig⟩ :=
    stop_loop_spec false st.count st.polls st.procs hpb hqb hnd1 hnd2 hdisj
  refine ⟨evs0 ++ [Event.respond (ARes.StopAll (.ok ()))], ?_, ?_, ?_, ?_, ?_⟩
  · rw [stop_all, heq]
    rfl
  · rw [responsesOf_append, hresp]
    rfl
  · rw [stoppedIds_append]
    simpa [stoppedIds, stopEventId] using hsorted
  · intro q hq
    exact List.mem_append_left _ ((hprocs q hq).subset (stop_process_wait_mem q.1 q.2 false))
  · intro q hq
    exact List.mem_append_left _ (hpolls q hq)

/-- C3 witness: an agent holding a poller (id 1) and a process (id 2). -/
theorem c3_witness :
    ∃ evs,
      stop_all stExample false true = .ok ({ stExample with polls := [], procs := [] }, evs) ∧
      responsesOf evs = [ARes.StopAll (.ok ())] ∧
      List.Pairwise (· ≥ ·) (stoppedIds evs) ∧
      (∀ q ∈ stExample.procs, Event.procWait q.1 ∈ evs) ∧
      (∀ q ∈ stExample.polls, Event.pollStop q.1 ∈ evs) :=
  c3_stop_all_descending stExample (by decide)

/-- C4 (confirmed): `stop_process` waits without signalling exactly when the
process was spawned `BackgroundWait` (`wait4`) and the stop is not forced, and
signals then waits otherwise; on `Abort` the final stop-all runs forced, so
every background process — `BackgroundWait` included — is signalled then
waited; on `End` it runs gracefully, so `BackgroundWait` processes are waited
without any signal. -/
theorem c4_stop_modes (env : AgentEnv) (st : AgentState) (rs : List Request)
    (id : Nat) (proc : ProcInfo) (force : Bool) (h : WfState st) :
    (proc.wait4 = true → stop_process id proc false = [Event.procWait id]) ∧
    (proc.wait4 = false ∨ force = true →
      stop_process id proc force = [Event.sigTerm id, Event.procWait id]) ∧
    (∃ p, serve env st (Request.Abort :: rs) = .ok p ∧
      ∀ q ∈ st.procs, [Event.sigTerm q.1, Event.procWait q.1].Sublist p.2) ∧
    (∃ p, serve env st (Request.End :: rs) = .ok p ∧
      ∀ q ∈ st.procs, q.2.wait4 = true →
        Event.procWait q.1 ∈ p.2 ∧ Event.sigTerm q.1 ∉ p.2) := by
  obtain ⟨hpb, hqb, hnd1, hnd2, hdisj⟩ := h
  refine ⟨?_, ?_, ?_, ?_⟩
  · intro hw
    rw [stop_process, hw]
    rfl
  · intro hc
    rw [stop_process]
    have hcb : (!proc.wait4 || force) = true := by
      rcases hc with hc | hc <;> simp [hc]
    rw [if_pos hcb]
    rfl
  · obtain ⟨evs0, heq, hbound, hsorted, hresp, hprocs, hpolls, hsig⟩ :=
      stop_loop_spec true st.count st.polls st.procs hpb hqb hnd1 hnd2 hdisj
    have hserve : serve env st (Request.Abort :: rs) = stop_all st true false := by
      simp only [serve]
    refine ⟨({ st with polls := [], procs := [] }, evs0 ++ []), ?_, ?_⟩
    · rw [hserve, stop_all, heq]
      rfl
    · intro q hq
      have hblock := hprocs q hq
      have hform : stop_process q.1 q.2 true = [Event.sigTerm q.1, Event.procWait q.1] := by
        rw [stop_process]
        simp
      rw [hform] at hblock
      exact hblock.trans (List.sublist_append_left _ _)
  · obtain ⟨evs0, heq, hbound, hsorted, hresp, hprocs, hpolls, hsig⟩ :=
      stop_loop_spec false st.count st.polls st.procs hpb hqb hnd1 hnd2 hdisj
    have hserve : serve env st (Request.End :: rs) = stop_all st false false := by
      simp only [serve]
    refine ⟨({ st with polls := [], procs := [] }, evs0 ++ []), ?_, ?_⟩
    · rw [hserve, stop_all, heq]
      rfl
    · rintro ⟨k, v⟩ hq hw
      simp only at hw
      constructor
      · have hblock := hprocs (k, v) hq
        have hform : stop_process (k, v).1 (k, v).2 false = [Event.procWait k] := by
          rw [stop_process]
          simp only at hw ⊢
          rw [hw]
          rfl
        rw [hform] at hblock
        exact List.mem_append_left _ (hblock.subset (by simp))
      · intro hmem
        rcases List.mem_append.mp hmem with hmem | hmem
        · obtain ⟨pr, hpr, hcond⟩ := hsig (k, v).1 hmem
          have hprv : pr = v := assoc_unique hnd2 hpr hq
          rcases hcond with hcond | hcond
          · rw [hprv, hw] at hcond
            simp at hcond
          · simp at hcond
        · simp at hmem

/-- C4 witness: the example agent with a `BackgroundWait` process (id 2). -/
theorem c4_witness :
    (ProcInfo.mk true "sleep 30" |>.wait4) = true ∧
    stop_process 2 ⟨true, "sleep 30"⟩ false = [Event.procWait 2] ∧
    stop_process 2 ⟨true, "sleep 30"⟩ true = [Event.sigTerm 2, Event.procWait 2] ∧
    (∃ p, serve envAllOk stExample (Request.Abort :: []) = .ok p ∧
      ∀ q ∈ stExample.procs, [Event.sigTerm q.1, Event.procWait q.1].Sublist p.2) ∧
    (∃ p, serve envAllOk stExample (Request.End :: []) = .ok p ∧
      ∀ q ∈ stExample.procs, q.2.wait4 = true →
        Event.procWait q.1 ∈ p.2 ∧ Event.sigTerm q.1 ∉ p.2) := by
  have h := c4_stop_modes envAllOk stExample [] 2 ⟨true, "sleep 30"⟩ true (by decide)
  exact ⟨rfl, h.1 rfl, h.2.1 (Or.inr rfl), h.2.2.1, h.2.2.2⟩



/-- Support for C5: none of the actions of `stop_process` is a response. -/
theorem stop_process_resp_id_none (id : Nat) (proc : ProcInfo) (force : Bool) :
    ∀ e ∈ stop_process id proc force, eventRespId e = none := by
  intro e he
  rw [stop_process] at he
  by_cases hx : (!proc.wait4 || force) = true
  · rw [if_pos hx] at he
    simp only [List.cons_append, List.nil_append, List.mem_cons, List.not_mem_nil,
      or_false] at he
    rcases he with rfl | rfl <;> rfl
  · rw [if_neg hx] at he
    simp only [List.nil_append, List.mem_cons, List.not_mem_nil, or_false] at he
    rw [he]
    rfl

/-- Support for C5: the stop-all loop produces no responses at all. -/
theorem stop_loop_resp_free (abnormal : Bool) :
    ∀ (n : Nat) (polls : List (Nat × PollInfo)) (procs : List (Nat × ProcInfo))
      (evs : List Event) (m1 : List (Nat × PollInfo)) (m2 : List (Nat × ProcInfo)),
      stop_loop abnormal n polls procs = .ok (evs, m1, m2) →
      ∀ e ∈ evs, eventRespId e = none := by
  intro n
  induction n with
  | zero =>
      intro polls procs evs m1 m2 h e he
      simp only [stop_loop, AgentStep.ok.injEq, Prod.mk.injEq] at h
      rw [← h.1] at he
      cases he
  | succ n ih =>
      intro polls procs evs m1 m2 h e he
      cases hfp : assocFind (n + 1) procs with
      | some proc =>
          cases hfq : assocFind (n + 1) polls with
          | some poll =>
              simp only [stop_loop, hfp, hfq] at h
              exact absurd h (by simp)
          | none =>
              cases hrec : stop_loop abnormal n polls (assocRemove (n + 1) procs) with
              | panic m =>
                  simp only [stop_loop, hfp, hfq, hrec, AgentStep.map] at h
                  exact absurd h (by simp)
              | ok r =>
                  obtain ⟨evs2, mm1, mm2⟩ := r
                  simp only [stop_loop, hfp, hfq, hrec, AgentStep.map,
                    AgentStep.ok.injEq, Prod.mk.injEq] at h
                  rw [← h.1] at he
                  rcases List.mem_append.mp he with he | he
                  · exact stop_process_resp_id_none (n + 1) proc abnormal e he
                  · exact ih polls (assocRemove (n + 1) procs) evs2 mm1 mm2 hrec e he
      | none =>
          cases hfq : assocFind (n + 1) polls with
          | some poll =>
              cases hrec : stop_loop abnormal n (assocRemove (n + 1) polls) procs with
              | panic m =>
                  simp only [stop_loop, hfp, hfq, hrec, AgentStep.map] at h
                  exact absurd h (by simp)
              | ok r =>
                  obtain ⟨evs2, mm1, mm2⟩ := r
                  simp only [stop_loop, hfp, hfq, hrec, AgentStep.map,
                    AgentStep.ok.injEq, Prod.mk.injEq] at h
                  rw [← h.1] at he
                  rcases List.mem_cons.mp he with rfl | he
                  · rfl
                  · exact ih (assocRemove (n + 1) polls) procs evs2 mm1 mm2 hrec e he
          | none =>
              simp only [stop_loop, hfp, hfq] at h
              exact ih polls procs evs m1 m2 h e he

/-- Support for C5: `stop_all` returns no ids and leaves the counter alone. -/
theorem stop_all_weak {st : AgentState} {ab fs : Bool} {st2 : AgentState} {evs : List Event}
    (h : stop_all st ab fs = .ok (st2, evs)) :
    returnedIds evs = [] ∧ st2.count = st.count := by
  rw [stop_all] at h
  cases hrec : stop_loop ab st.count st.polls st.procs with
  | panic m =>
      simp only [hrec] at h
      exact absurd h (by simp)
  | ok r =>
      obtain ⟨evs0, m1, m2⟩ := r
      simp only [hrec] at h
      by_cases hm1 : m1.isEmpty = true
      · rw [if_pos hm1] at h
        by_cases hm2 : m2.isEmpty = true
        · rw [if_pos hm2] at h
          simp only [AgentStep.ok.injEq, Prod.mk.injEq] at h
          obtain ⟨hst, hevs⟩ := h
          have h0 : evs0.filterMap eventRespId = [] :=
            List.filterMap_eq_nil_iff.mpr
              (stop_loop_resp_free ab st.count st.polls st.procs evs0 m1 m2 hrec)
          constructor
          · rw [← hevs, returnedIds, List.filterMap_append, h0]
            cases fs <;> rfl
          · rw [← hst]
        · rw [if_neg hm2] at h
          exact absurd h (by simp)
      · rw [if_neg hm1] at h
        exact absurd h (by simp)

/-- Support for C5: a successful run of `spawn_process_foreground` bumps the
counter once, emits only filesystem/process events before the response, and
either fails (non-id) or returns the freshly allocated id. -/
theorem spawn_process_foreground_spec (env : AgentEnv) (st : AgentState) (cmd : String)
    (args : List String)
    (t : AgentState × List Event × Except String (Nat × List Nat × List Nat))
    (h : spawn_process_foreground env st cmd args = .ok t) :
    t.1.count = st.count + 1 ∧ t.2.1.filterMap eventRespId = [] ∧
    ((∃ e, t.2.2 = .error e) ∨ ∃ od, t.2.2 = .ok (st.count + 1, od)) := by
  simp only [spawn_process_foreground, get_next_id] at h
  split at h
  · exact absurd h (by simp)
  · split at h
    · exact absurd h (by simp)
    · split at h
      · exact absurd h (by simp)
      · split at h
        · rw [AgentStep.ok.injEq] at h
          rw [← h]
          exact ⟨rfl, rfl, Or.inl ⟨_, rfl⟩⟩
        · rw [AgentStep.ok.injEq] at h
          rw [← h]
          exact ⟨rfl, rfl, Or.inr ⟨_, rfl⟩⟩

/-- Support for C5: same for `spawn_process_background`. -/
theorem spawn_process_background_spec (env : AgentEnv) (st : AgentState) (cmd : String)
    (args : List String) (wait4 : Bool)
    (t : AgentState × List Event × Except String Nat)
    (h : spawn_process_background env st cmd args wait4 = .ok t) :
    t.1.count = st.count + 1 ∧ t.2.1.filterMap eventRespId = [] ∧
    ((∃ e, t.2.2 = .error e) ∨ t.2.2 = .ok (st.count + 1)) := by
  simp only [spawn_process_background, get_next_id] at h
  split at h
  · exact absurd h (by simp)
  · split at h
    · exact absurd h (by simp)
    · split at h
      · exact absurd h (by simp)
      · split at h
        · rw [AgentStep.ok.injEq] at h
          rw [← h]
          exact ⟨rfl, rfl, Or.inl ⟨_, rfl⟩⟩
        · rw [AgentStep.ok.injEq] at h
          rw [← h]
          exact ⟨rfl, rfl, Or.inr rfl⟩

/-- Support for C5: a non-panicking `handle_message` either returns no id and
keeps the counter, returns exactly the freshly allocated id `count + 1`, or
consumes an id without returning one — and then a Spawn-failure response is
among the events. -/
theorem handle_message_ids (env : AgentEnv) (st : AgentState) (r : Request)
    (st2 : AgentState) (evs : List Event)
    (h : handle_message env st r = .ok (st2, evs)) :
    (returnedIds evs = [] ∧ st2.count = st.count) ∨
    (returnedIds evs = [st.count + 1] ∧ st2.count = st.count + 1) ∨
    (returnedIds evs = [] ∧ st2.count = st.count + 1 ∧ ∃ e ∈ evs, isSpawnErr e = true) := by
  cases r with
  | LookupPaths pattern =>
      left
      simp only [handle_message, AgentStep.ok.injEq, Prod.mk.injEq] at h
      obtain ⟨h1, h2⟩ := h
      exact ⟨by rw [← h2]; rfl, by rw [← h1]⟩
  | Poll pattern =>
      cases hl : lookup_paths env pattern with
      | error e =>
          left
          simp only [handle_message, hl, AgentStep.ok.injEq, Prod.mk.injEq] at h
          obtain ⟨h1, h2⟩ := h
          exact ⟨by rw [← h2]; rfl, by rw [← h1]⟩
      | ok paths =>
          right; left
          simp only [handle_message, hl, spawn_poller, get_next_id,
            AgentStep.ok.injEq, Prod.mk.injEq] at h
          obtain ⟨h1, h2⟩ := h
          exact ⟨by rw [← h2]; rfl, by rw [← h1]⟩
  | Spawn cmd args mode =>
      cases mode with
      | Foreground =>
          simp only [handle_message, spawn_process] at h
          cases hsp : spawn_process_foreground env st cmd args with
          | panic m =>
              simp only [hsp, AgentStep.map] at h
              exact absurd h (by simp)
          | ok t =>
              obtain ⟨stx, evs0, r0⟩ := t
              obtain ⟨hc, hn, hres⟩ :=
                spawn_process_foreground_spec env st cmd args (stx, evs0, r0) hsp
              dsimp only at hc hn hres
              simp only [hsp, AgentStep.map, AgentStep.ok.injEq, Prod.mk.injEq] at h
              obtain ⟨h1, h2⟩ := h
              rcases hres with ⟨e, he⟩ | ⟨od, he⟩
              · right; right
                refine ⟨?_, by rw [← h1]; exact hc, ?_⟩
                · rw [← h2, returnedIds, List.filterMap_append, hn, he]
                  rfl
                · rw [← h2, he]
                  exact ⟨Event.respond (ARes.SpawnFg (.error e)), by simp, rfl⟩
              · right; left
                refine ⟨?_, by rw [← h1]; exact hc⟩
                rw [← h2, returnedIds, List.filterMap_append, hn, he]
                rfl
      | BackgroundWait =>
          simp only [handle_message, spawn_process] at h
          cases hsp : spawn_process_background env st cmd args true with
          | panic m =>
              simp only [hsp, AgentStep.map] at h
              exact absurd h (by simp)
          | ok t =>
              obtain ⟨stx, evs0, r0⟩ := t
              obtain ⟨hc, hn, hres⟩ :=
                spawn_process_background_spec env st cmd args true (stx, evs0, r0) hsp
              dsimp only at hc hn hres
              simp only [hsp, AgentStep.map, AgentStep.ok.injEq, Prod.mk.injEq] at h
              obtain ⟨h1, h2⟩ := h
              rcases hres with ⟨e, he⟩ | he
              · right; right
                refine ⟨?_, by rw [← h1]; exact hc, ?_⟩
                · rw [← h2, returnedIds, List.filterMap_append, hn, he]
                  rfl
                · rw [← h2, he]
                  exact ⟨Event.respond (ARes.SpawnBg (.error e)), by simp, rfl⟩
              · right; left
                refine ⟨?_, by rw [← h1]; exact hc⟩
                rw [← h2, returnedIds, List.filterMap_append, hn, he]
                rfl
      | BackgroundKill =>
          simp only [handle_message, spawn_process] at h
          cases hsp : spawn_process_background env st cmd args false with
          | panic m =>
              simp only [hsp, AgentStep.map] at h
              exact absurd h (by simp)
          | ok t =>
              obtain ⟨stx, evs0, r0⟩ := t
              obtain ⟨hc, hn, hres⟩ :=
                spawn_process_background_spec env st cmd args false (stx, evs0, r0) hsp
              dsimp only at hc hn hres
              simp only [hsp, AgentStep.map, AgentStep.ok.injEq, Prod.mk.injEq] at h
              obtain ⟨h1, h2⟩ := h
              rcases hres with ⟨e, he⟩ | he
              · right; right
                refine ⟨?_, by rw [← h1]; exact hc, ?_⟩
                · rw [← h2, returnedIds, List.filterMap_append, hn, he]
                  rfl
                · rw [← h2, he]
                  exact ⟨Event.respond (ARes.SpawnBg (.error e)), by simp, rfl⟩
              · right; left
                refine ⟨?_, by rw [← h1]; exact hc⟩
                rw [← h2, returnedIds, List.filterMap_append, hn, he]
                rfl
  | Stop id =>
      left
      simp only [handle_message, stop_task] at h
      split at h
      · next proc heq1 heq2 =>
          simp only [AgentStep.ok.injEq, Prod.mk.injEq] at h
          obtain ⟨h1, h2⟩ := h
          constructor
          · rw [← h2, returnedIds, List.filterMap_append,
              List.filterMap_eq_nil_iff.mpr (stop_process_resp_id_none id proc false)]
            rfl
          · rw [← h1]
      · next heq1 heq2 =>
          simp only [AgentStep.ok.injEq, Prod.mk.injEq] at h
          obtain ⟨h1, h2⟩ := h
          exact ⟨by rw [← h2]; rfl, by rw [← h1]⟩
      · next heq1 heq2 =>
          simp only [AgentStep.ok.injEq, Prod.mk.injEq] at h
          obtain ⟨h1, h2⟩ := h
          exact ⟨by rw [← h2]; rfl, by rw [← h1]⟩
      · next heq1 heq2 => exact absurd h (by simp)
  | StopAll =>
      left
      simp only [handle_message] at h
      exact stop_all_weak h
  | Collect =>
      left
      simp only [handle_message, collect_data] at h
      split at h
      · split at h
        · simp only [AgentStep.ok.injEq, Prod.mk.injEq] at h
          obtain ⟨h1, h2⟩ := h
          exact ⟨by rw [← h2]; rfl, by rw [← h1]⟩
        · exact absurd h (by simp)
      · exact absurd h (by simp)
  | End =>
      simp only [handle_message] at h
      exact absurd h (by simp)
  | Abort =>
      simp only [handle_message] at h
      exact absurd h (by simp)

/-- Support for C5: combining one dispatch step with the rest of the session. -/
theorem serve_ids_combine {st st2 : AgentState} {evs1 evs2 : List Event}
    (hstep : (returnedIds evs1 = [] ∧ st2.count = st.count) ∨
      (returnedIds evs1 = [st.count + 1] ∧ st2.count = st.count + 1) ∨
      (returnedIds evs1 = [] ∧ st2.count = st.count + 1 ∧ ∃ e ∈ evs1, isSpawnErr e = true))
    (hrec1 : ∀ i ∈ returnedIds evs2, st2.count < i)
    (hrec2 : List.Chain' (· < ·) (returnedIds evs2))
    (hrec3 : (∀ e ∈ evs2, isSpawnErr e = false) →
      returnedIds evs2 = List.range' (st2.count + 1) (returnedIds evs2).length) :
    (∀ i ∈ returnedIds (evs1 ++ evs2), st.count < i) ∧
    List.Chain' (· < ·) (returnedIds (evs1 ++ evs2)) ∧
    ((∀ e ∈ evs1 ++ evs2, isSpawnErr e = false) →
      returnedIds (evs1 ++ evs2) = List.range' (st.count + 1) (returnedIds (evs1 ++ evs2)).length) := by
  have happ : returnedIds (evs1 ++ evs2) = returnedIds evs1 ++ returnedIds evs2 :=
    List.filterMap_append evs1 evs2 eventRespId
  rcases hstep with ⟨hid, hcnt⟩ | ⟨hid, hcnt⟩ | ⟨hid, hcnt, e0, he0, hspe⟩
  · rw [hcnt] at hrec1 hrec3
    refine ⟨?_, ?_, ?_⟩
    · rw [happ, hid]
      simpa using hrec1
    · rw [happ, hid]
      simpa using hrec2
    · intro hall
      rw [happ, hid, List.nil_append]
      exact hrec3 (fun e he => hall e (List.mem_append_right _ he))
  · refine ⟨?_, ?_, ?_⟩
    · rw [happ, hid]
      intro i hi
      rcases List.mem_cons.mp hi with rfl | hi
      · omega
      · have := hrec1 i hi
        omega
    · rw [happ, hid, List.singleton_append, List.chain'_cons']
      refine ⟨?_, hrec2⟩
      intro y hy
      have := hrec1 y (List.mem_of_mem_head? hy)
      omega
    · intro hall
      rw [happ, hid, List.singleton_append]
      have hr := hrec3 (fun e he => hall e (List.mem_append_right _ he))
      rw [hr, hcnt]
      rw [List.length_cons, List.length_range']
      rw [List.range'_succ]
  · refine ⟨?_, ?_, ?_⟩
    · rw [happ, hid, List.nil_append]
      intro i hi
      have := hrec1 i hi
      omega
    · rw [happ, hid, List.nil_append]
      exact hrec2
    · intro hall
      exact absurd (hall e0 (List.mem_append_left _ he0)) (by rw [hspe]; simp)

/-- Support for C5: over any non-panicking session from any start state, the
returned ids are all above the start counter, strictly increasing, and — when
no Spawn failed — exactly the consecutive range above the start counter. -/
theorem serve_ids (env : AgentEnv) :
    ∀ (reqs : List Request) (st st3 : AgentState) (evs : List Event),
      serve env st reqs = .ok (st3, evs) →
      (∀ i ∈ returnedIds evs, st.count < i) ∧
      List.Chain' (· < ·) (returnedIds evs) ∧
      ((∀ e ∈ evs, isSpawnErr e = false) →
        returnedIds evs = List.range' (st.count + 1) (returnedIds evs).length) := by
  intro reqs
  induction reqs with
  | nil =>
      intro st st3 evs h
      simp only [serve] at h
      obtain ⟨hid, -⟩ := stop_all_weak h
      exact ⟨by simp [hid], by simp [hid], fun _ => by simp [hid]⟩
  | cons r rs ih =>
      intro st st3 evs h
      cases r with
      | End =>
          simp only [serve] at h
          obtain ⟨hid, -⟩ := stop_all_weak h
          exact ⟨by simp [hid], by simp [hid], fun _ => by simp [hid]⟩
      | Abort =>
          simp only [serve] at h
          obtain ⟨hid, -⟩ := stop_all_weak h
          exact ⟨by simp [hid], by simp [hid], fun _ => by simp [hid]⟩
      | Poll pattern =>
          simp only [serve] at h
          cases hh : handle_message env st (Request.Poll pattern) with
          | panic m =>
              simp only [hh] at h
              exact absurd h (by simp)
          | ok p =>
              obtain ⟨st2, evs1⟩ := p
              simp only [hh] at h
              cases hs : serve env st2 rs with
              | panic m =>
                  simp only [hs] at h
                  exact absurd h (by simp)
              | ok p2 =>
                  obtain ⟨st3x, evs2⟩ := p2
                  simp only [hs, AgentStep.ok.injEq, Prod.mk.injEq] at h
                  obtain ⟨h1, h2⟩ := h
                  rw [← h2]
                  obtain ⟨hr1, hr2, hr3⟩ := ih st2 st3x evs2 hs
                  exact serve_ids_combine (handle_message_ids env st _ st2 evs1 hh) hr1 hr2 hr3
      | Spawn cmd args mode =>
          simp only [serve] at h
          cases hh : handle_message env st (Request.Spawn cmd args mode) with
          | panic m =>
              simp only [hh] at h
              exact absurd h (by simp)
          | ok p =>
              obtain ⟨st2, evs1⟩ := p
              simp only [hh] at h
              cases hs : serve env st2 rs with
              | panic m =>
                  simp only [hs] at h
                  exact absurd h (by simp)
              | ok p2 =>
                  obtain ⟨st3x, evs2⟩ := p2
                  simp only [hs, AgentStep.ok.injEq, Prod.mk.injEq] at h
                  obtain ⟨h1, h2⟩ := h
                  rw [← h2]
                  obtain ⟨hr1, hr2, hr3⟩ := ih st2 st3x evs2 hs
                  exact serve_ids_combine (handle_message_ids env st _ st2 evs1 hh) hr1 hr2 hr3
      | LookupPaths pattern =>
          simp only [serve] at h
          cases hh : handle_message env st (Request.LookupPaths pattern) with
          | panic m =>
              simp only [hh] at h
              exact absurd h (by simp)
          | ok p =>
              obtain ⟨st2, evs1⟩ := p
              simp only [hh] at h
              cases hs : serve env st2 rs with
              | panic m =>
                  simp only [hs] at h
                  exact absurd h (by simp)
              | ok p2 =>
                  obtain ⟨st3x, evs2⟩ := p2
                  simp only [hs, AgentStep.ok.injEq, Prod.mk.injEq] at h
                  obtain ⟨h1, h2⟩ := h
                  rw [← h2]
                  obtain ⟨hr1, hr2, hr3⟩ := ih st2 st3x evs2 hs
                  exact serve_ids_combine (handle_message_ids env st _ st2 evs1 hh) hr1 hr2 hr3
      | Stop id =>
          simp only [serve] at h
          cases hh : handle_message env st (Request.Stop id) with
          | panic m =>
              simp only [hh] at h
              exact absurd h (by simp)
          | ok p =>
              obtain ⟨st2, evs1⟩ := p
              simp only [hh] at h
              cases hs : serve env st2 rs with
              | panic m =>
                  simp only [hs] at h
                  exact absurd h (by simp)
              | ok p2 =>
                  obtain ⟨st3x, evs2⟩ := p2
                  simp only [hs, AgentStep.ok.injEq, Prod.mk.injEq] at h
                  obtain ⟨h1, h2⟩ := h
                  rw [← h2]
                  obtain ⟨hr1, hr2, hr3⟩ := ih st2 st3x evs2 hs
                  exact serve_ids_combine (handle_message_ids env st _ st2 evs1 hh) hr1 hr2 hr3
      | StopAll =>
          simp only [serve] at h
          cases hh : handle_message env st (Request.StopAll) with
          | panic m =>
              simp only [hh] at h
              exact absurd h (by simp)
          | ok p =>
              obtain ⟨st2, evs1⟩ := p
              simp only [hh] at h
              cases hs : serve env st2 rs with
              | panic m =>
                  simp only [hs] at h
                  exact absurd h (by simp)
              | ok p2 =>
                  obtain ⟨st3x, evs2⟩ := p2
                  simp only [hs, AgentStep.ok.injEq, Prod.mk.injEq] at h
                  obtain ⟨h1, h2⟩ := h
                  rw [← h2]
                  obtain ⟨hr1, hr2, hr3⟩ := ih st2 st3x evs2 hs
                  exact serve_ids_combine (handle_message_ids env st _ st2 evs1 hh) hr1 hr2 hr3
      | Collect =>
          simp only [serve] at h
          cases hh : handle_message env st (Request.Collect) with
          | panic m =>
              simp only [hh] at h
              exact absurd h (by simp)
          | ok p =>
              obtain ⟨st2, evs1⟩ := p
              simp only [hh] at h
              cases hs : serve env st2 rs with
              | panic m =>
                  simp only [hs] at h
                  exact absurd h (by simp)
              | ok p2 =>
                  obtain ⟨st3x, evs2⟩ := p2
                  simp only [hs, AgentStep.ok.injEq, Prod.mk.injEq] at h
                  obtain ⟨h1, h2⟩ := h
                  rw [← h2]
                  obtain ⟨hr1, hr2, hr3⟩ := ih st2 st3x evs2 hs
                  exact serve_ids_combine (handle_message_ids env st _ st2 evs1 hh) hr1 hr2 hr3


/-- C5 (corrected): over any non-panicking session on a fresh agent, the
sequence of ids returned in Poll/Spawn responses is strictly increasing and at
least 1, and it is exactly `1, 2, 3, …` — increasing by 1 starting at 1 —
provided no Spawn request failed: a failed Spawn consumes an id (the counter is
incremented before the spawn is attempted) without returning it, so failures
leave gaps (see the counterexample). -/
theorem c5_returned_ids_strictly_increasing (env : AgentEnv) (od : String)
    (reqs : List Request) (st3 : AgentState) (evs : List Event)
    (h : serve env (initState od) reqs = .ok (st3, evs)) :
    List.Chain' (· < ·) (returnedIds evs) ∧
    (∀ i ∈ returnedIds evs, 1 ≤ i) ∧
    ((∀ e ∈ evs, isSpawnErr e = false) →
      returnedIds evs = List.range' 1 (returnedIds evs).length) := by
  obtain ⟨h1, h2, h3⟩ := serve_ids env reqs (initState od) st3 evs h
  exact ⟨h2, fun i hi => h1 i hi, h3⟩

/-- C5 witness: a session with one successful Poll returns exactly the id 1. -/
theorem c5_witness :
    List.Chain' (· < ·) (returnedIds [Event.pollStart 1 "o/001-poll.log",
      Event.respond (ARes.Poll (.ok 1)), Event.pollStop 1]) ∧
    (∀ i ∈ returnedIds [Event.pollStart 1 "o/001-poll.log",
      Event.respond (ARes.Poll (.ok 1)), Event.pollStop 1], 1 ≤ i) ∧
    ((∀ e ∈ [Event.pollStart 1 "o/001-poll.log",
        Event.respond (ARes.Poll (.ok 1)), Event.pollStop 1], isSpawnErr e = false) →
      returnedIds [Event.pollStart 1 "o/001-poll.log",
        Event.respond (ARes.Poll (.ok 1)), Event.pollStop 1] =
        List.range' 1 (returnedIds [Event.pollStart 1 "o/001-poll.log",
          Event.respond (ARes.Poll (.ok 1)), Event.pollStop 1]).length) :=
  c5_returned_ids_strictly_increasing envAllOk "o" [Request.Poll "p"]
    { count := 1, outdir := "o", polls := [], procs := [] }
    [Event.pollStart 1 "o/001-poll.log",
     Event.respond (ARes.Poll (.ok 1)), Event.pollStop 1] rfl

/-- C5 counterexample: a session whose first Spawn fails and whose second
succeeds returns the id sequence `[2]`, not `[1]` — the sequence of returned
ids does not increase by 1 starting at 1 once a failing request is involved,
because the failed Spawn silently consumed id 1. -/
theorem c5_counterexample :
    returnedIdsOf (serve envSpawnFail (initState "o")
      [Request.Spawn "x" [] SpawnMode.BackgroundKill,
       Request.Spawn "y" [] SpawnMode.BackgroundKill]) = [2] ∧
    ([2] : List Nat) ≠ List.range' 1 ([2] : List Nat).length :=
  ⟨rfl, by decide⟩


end Pmppt
